import Mathlib

/-!
# Verification of the befe frontend core

A shallow embedding, in Lean, of the security- and correctness-relevant parts
of the `befe` repository's frontend: the JWT client session manager
(`frontend/src/utils/auth.js`), the Dashboard sum calculator
(`frontend/src/views/Dashboard.vue`), the Profile password-change form
(`frontend/src/views/Profile.vue`), the Vue router navigation guard
(`frontend/src/router.js`), and the credits migration
(`backend/migrations/migrate_credits_to_separate_table.sql`).

JavaScript numbers are modelled as exact values (`ℚ` plus the special values
NaN and the two infinities); machine floating point rounding is not modelled.
Fallible JavaScript operations (exceptions) are modelled with `Option`.
localStorage is modelled as an explicit record of the two keys the code uses.
-/

namespace Befe

/-! ## JavaScript numbers

The Dashboard form fields are bound with `v-model.number` to numeric inputs,
so the values reaching `Number(a.value)` are JS numbers.  A JS number is NaN,
an infinity, or a finite value; finite doubles are modelled as exact
rationals. -/

/-- A JavaScript number: NaN, +Infinity, -Infinity, or a finite value. -/
inductive JSNum where
  | nan
  | posInf
  | negInf
  | num (q : ℚ)

/-- JS `isNaN` on a number. -/
def jsIsNaN : JSNum → Bool
  | .nan => true
  | _ => false

/-- JS `Number.isInteger`: false on NaN and the infinities, true exactly on
integral finite values. -/
def jsIsInteger : JSNum → Bool
  | .num q => q.den = 1
  | _ => false

/-- JS `<` against a finite constant (NaN never compares true; used only after
the NaN guard in `calculateSum`). -/
def jsLt (x : JSNum) (c : ℚ) : Bool :=
  match x with
  | .nan => false
  | .posInf => false
  | .negInf => true
  | .num q => q < c

/-- JS `>` against a finite constant. -/
def jsGt (x : JSNum) (c : ℚ) : Bool :=
  match x with
  | .nan => false
  | .posInf => true
  | .negInf => false
  | .num q => c < q

/-! ## Dashboard.vue: `calculateSum`

`calculateSum` validates the two inputs, then checks `isAuthenticated()`,
and only then performs the `authenticatedFetch('/api/sum', ...)`.  The
observable outcome of the pre-network part of the handler is one of: an
input-validation error message (no request), a session-expired redirect
(no request), or the dispatch of the POST request. -/

/-- Outcome of the `calculateSum` click handler up to the point where a
network request would be issued. -/
inductive SumOutcome where
  | inputError (msg : String)
  | sessionExpired
  | request (a b : JSNum)

/-- Whether an outcome dispatches a request to `/api/sum`. -/
def SumOutcome.sendsRequest : SumOutcome → Bool
  | .request _ _ => true
  | _ => false

/-- The validation and dispatch logic of `calculateSum`
(Dashboard.vue, script lines 41-84).  `authed` is the value of
`isAuthenticated()` at the time of the call. -/
def calculateSum (a b : JSNum) (authed : Bool) : SumOutcome :=
  let numA := a
  let numB := b
  if jsIsNaN numA || jsIsNaN numB then
    .inputError "Please enter valid numbers"
  else if !(jsIsInteger numA) || !(jsIsInteger numB) then
    .inputError "Please enter whole numbers (integers)"
  else if jsLt numA 0 || jsGt numA 1023 || jsLt numB 0 || jsGt numB 1023 then
    .inputError "Both numbers must be between 0 and 1023"
  else if !authed then
    .sessionExpired
  else
    .request a b

/-- A valid sum input per the spec: an integer in the inclusive range
[0, 1023]. -/
def validSumInput (x : JSNum) : Prop :=
  ∃ n : ℤ, x = .num (n : ℚ) ∧ 0 ≤ n ∧ n ≤ 1023

/-! ## Profile.vue: `updatePassword` -/

/-- An HTTP request as issued by the frontend views: url, method and a
JSON body given as ordered key/value pairs. -/
structure Req where
  url : String
  method : String
  body : List (String × String)
deriving DecidableEq

/-- Outcome of the `updatePassword` click handler up to the point where a
network request would be issued. -/
inductive PwOutcome where
  | error (msg : String)
  | send (r : Req)
deriving DecidableEq

/-- UTF-16 length of a string (JS `String.prototype.length`): astral code
points count as two code units. -/
def utf16Len (s : String) : Nat :=
  s.data.foldl (fun n c => n + (if c.toNat < 0x10000 then 1 else 2)) 0

/-- JS regex `/\d/` test: some ASCII digit occurs in the string. -/
def hasDigit (s : String) : Bool :=
  s.data.any (fun c => 48 ≤ c.toNat && c.toNat ≤ 57)

/-- JS regex `/[A-Z]/` test. -/
def hasUpper (s : String) : Bool :=
  s.data.any (fun c => 65 ≤ c.toNat && c.toNat ≤ 90)

/-- JS regex `/[a-z]/` test. -/
def hasLower (s : String) : Bool :=
  s.data.any (fun c => 97 ≤ c.toNat && c.toNat ≤ 122)

/-- The validation and dispatch logic of `updatePassword`
(Profile.vue, script lines 33-85).  The three arguments are the values of
the current-password, new-password, and confirm-password fields. -/
def updatePassword (current newPw confirm : String) : PwOutcome :=
  if current = "" then .error "Current password is required"
  else if newPw = "" then .error "New password is required"
  else if utf16Len newPw < 8 then .error "Password must be at least 8 characters long"
  else if !(hasDigit newPw) then .error "Password must contain at least one number"
  else if !(hasUpper newPw) then .error "Password must contain at least one uppercase letter"
  else if !(hasLower newPw) then .error "Password must contain at least one lowercase letter"
  else if newPw ≠ confirm then .error "Passwords do not match"
  else .send ⟨"/users/me/password", "PATCH",
    [("current_password", current), ("password", newPw)]⟩

/-- The complexity policy the spec states for new passwords: at least 8
characters, at least one digit, one uppercase and one lowercase letter. -/
def passwordPolicyOk (s : String) : Bool :=
  decide (8 ≤ utf16Len s) && hasDigit s && hasUpper s && hasLower s

/-! ## router.js: the navigation guard -/

/-- The `meta` fields of a route consulted by the guard; a route definition
without one of the keys yields `undefined`, which is falsy, so absent keys
are modelled as `false`. -/
structure RouteMeta where
  requiresAuth : Bool
  requiresAdmin : Bool

/-- What the guard does with a navigation: call `next('/...')` with a
redirect target, or `next()` to let the navigation proceed. -/
inductive Nav where
  | redirect (path : String)
  | proceed
deriving DecidableEq

/-- The body of `router.beforeEach` (router.js lines 52-70).  `authed` is
`isAuthenticated()` and `admin` is the awaited value of `isAdmin()`. -/
def beforeEach (meta : RouteMeta) (authed admin : Bool) : Nav :=
  if meta.requiresAuth && !authed then .redirect "/login"
  else if meta.requiresAdmin then
    if !admin then .redirect "/profile" else .proceed
  else .proceed

/-! ## The credits migration and defaults -/

/-- A row of the `"user"` table before the migration: id plus the legacy
nullable `credits` column. -/
structure UserRow where
  id : Nat
  legacyCredits : Option Int

/-- A row of the `user_credits` table. -/
structure CreditRow where
  user_id : Nat
  credits : Int
deriving DecidableEq

/-- The `DEFAULT 10` of the `credits` column in the `user_credits` schema
(migration step 1). -/
def userCreditsDefault : Int := 10

/-- Step 2 of the migration: `INSERT INTO user_credits (user_id, credits)
SELECT id, COALESCE(credits, 10) FROM "user" WHERE id NOT IN (SELECT user_id
FROM user_credits)`. -/
def migrateCredits (users : List UserRow) (existing : List CreditRow) :
    List CreditRow :=
  existing ++
    (users.filter (fun u => !(existing.any (fun r => r.user_id = u.id)))).map
      (fun u => ⟨u.id, u.legacyCredits.getD 10⟩)

/-- The initial value of the `formCredits` ref in the AdminUsers create-user
form (AdminUsers.vue line 27). -/
def formCreditsInit : Int := 10

/-! ## Base64 (the browser `atob`, and the encoding side used by tokens)

Bytes are modelled as `Nat` values below 256, sextets as `Nat` values below
64.  `atob` follows the HTML forgiving-base64 algorithm: remove ASCII
whitespace, strip up to two trailing `=` when the length is a multiple of
four, fail on a length of 1 mod 4 or any character outside the alphabet,
and decode, dropping the spare bits of a final partial group. -/

/-- The base64 alphabet: sextet to character. -/
def b64Char (n : Nat) : Char :=
  if n < 26 then Char.ofNat (65 + n)
  else if n < 52 then Char.ofNat (97 + (n - 26))
  else if n < 62 then Char.ofNat (48 + (n - 52))
  else if n = 62 then '+'
  else '/'

/-- The base64 alphabet: character to sextet, `none` outside the alphabet. -/
def b64Val (c : Char) : Option Nat :=
  if 65 ≤ c.toNat ∧ c.toNat ≤ 90 then some (c.toNat - 65)
  else if 97 ≤ c.toNat ∧ c.toNat ≤ 122 then some (c.toNat - 97 + 26)
  else if 48 ≤ c.toNat ∧ c.toNat ≤ 57 then some (c.toNat - 48 + 52)
  else if c = '+' then some 62
  else if c = '/' then some 63
  else none

/-- ASCII whitespace, which forgiving-base64 removes. -/
def isAsciiWs (c : Char) : Bool :=
  c.toNat = 32 || c.toNat = 9 || c.toNat = 10 || c.toNat = 12 || c.toNat = 13

/-- Strip up to two trailing `=` characters. -/
def dropPad (cs : List Char) : List Char :=
  match cs.reverse with
  | '=' :: '=' :: r => r.reverse
  | '=' :: r => r.reverse
  | _ => cs

/-- Decode a list of sextets into bytes, a group of four sextets giving
three bytes; a trailing group of two or three sextets contributes one or
two bytes, its spare low bits dropped.  A singleton trailing group cannot
occur (`atob` rejects lengths of 1 mod 4). -/
def b64DecodeVals : List Nat → List Nat
  | a :: b :: c :: d :: rest =>
    (a * 4 + b / 16) :: ((b % 16) * 16 + c / 4) :: ((c % 4) * 64 + d) ::
      b64DecodeVals rest
  | [a, b] => [a * 4 + b / 16]
  | [a, b, c] => [a * 4 + b / 16, (b % 16) * 16 + c / 4]
  | _ => []

/-- The browser `atob`: forgiving-base64 decode to bytes. -/
def atob (s : List Char) : Option (List Nat) :=
  let cs := s.filter (fun c => !isAsciiWs c)
  let cs := if cs.length % 4 = 0 then dropPad cs else cs
  if cs.length % 4 = 1 then none
  else
    match cs.mapM b64Val with
    | none => none
    | some vs => some (b64DecodeVals vs)

/-- Standard padded base64 of a byte list (the browser `btoa`). -/
def b64EncodeBytes : List Nat → List Char
  | x :: y :: z :: rest =>
    b64Char (x / 4) :: b64Char ((x % 4) * 16 + y / 16) ::
      b64Char ((y % 16) * 4 + z / 64) :: b64Char (z % 64) ::
      b64EncodeBytes rest
  | [x, y] => [b64Char (x / 4), b64Char ((x % 4) * 16 + y / 16),
      b64Char ((y % 16) * 4), '=']
  | [x] => [b64Char (x / 4), b64Char ((x % 4) * 16), '=', '=']
  | [] => []

/-- The character replacement `auth.js` performs before calling `atob`:
base64url characters back to standard base64. -/
def b64OfB64Url (c : Char) : Char :=
  if c = '-' then '+' else if c = '_' then '/' else c

/-- base64url encoding of a byte list: standard base64 with `+`/`/`
replaced by `-`/`_` and without padding. -/
def base64UrlEncode (bs : List Nat) : List Char :=
  ((b64EncodeBytes bs).filter (fun c => c ≠ '=')).map
    (fun c => if c = '+' then '-' else if c = '/' then '_' else c)

/-! ## UTF-8

`decodeToken` runs `decodeURIComponent` over the percent-encoded bytes that
`atob` produced, which amounts to decoding those bytes as UTF-8 (failing on
malformed sequences).  A byte list decodes to a character list; encoding is
the usual UTF-8 serialization of unicode scalar values. -/

/-- UTF-8 bytes of one character. -/
def utf8EncodeChar (c : Char) : List Nat :=
  let n := c.toNat
  if n < 0x80 then [n]
  else if n < 0x800 then [0xC0 + n / 64, 0x80 + n % 64]
  else if n < 0x10000 then [0xE0 + n / 4096, 0x80 + n / 64 % 64, 0x80 + n % 64]
  else [0xF0 + n / 262144, 0x80 + n / 4096 % 64, 0x80 + n / 64 % 64,
    0x80 + n % 64]

/-- UTF-8 bytes of a character list. -/
def utf8Encode (cs : List Char) : List Nat := cs.flatMap utf8EncodeChar

/-- A UTF-8 continuation byte. -/
def isCont (b : Nat) : Bool := 0x80 ≤ b && b < 0xC0

/-- Decode the continuation of a two-byte UTF-8 sequence. -/
def utf8Step2 (b b2 : Nat) (r2 : List Nat) : Option (Char × List Nat) :=
  if isCont b2 then
    some (Char.ofNat ((b - 0xC0) * 64 + (b2 - 0x80)), r2)
  else none

/-- Decode the continuation of a three-byte UTF-8 sequence. -/
def utf8Step3 (b b2 b3 : Nat) (r2 : List Nat) : Option (Char × List Nat) :=
  let n := (b - 0xE0) * 4096 + (b2 - 0x80) * 64 + (b3 - 0x80)
  if isCont b2 && isCont b3 && decide (0x800 ≤ n) &&
      !(decide (0xD800 ≤ n) && decide (n < 0xE000)) then
    some (Char.ofNat n, r2)
  else none

/-- Decode the continuation of a four-byte UTF-8 sequence. -/
def utf8Step4 (b b2 b3 b4 : Nat) (r2 : List Nat) : Option (Char × List Nat) :=
  let n := (b - 0xF0) * 262144 + (b2 - 0x80) * 4096 +
    (b3 - 0x80) * 64 + (b4 - 0x80)
  if isCont b2 && isCont b3 && isCont b4 && decide (0x10000 ≤ n) &&
      decide (n < 0x110000) then
    some (Char.ofNat n, r2)
  else none

/-- Decode one UTF-8 sequence with lead byte `b` and remaining bytes `r`:
the decoded character and the bytes left over, or `none` on a malformed,
overlong, surrogate or truncated sequence. -/
def utf8Step (b : Nat) (r : List Nat) : Option (Char × List Nat) :=
  if b < 0x80 then some (Char.ofNat b, r)
  else if b < 0xC2 then none
  else if b < 0xE0 then
    match r with
    | b2 :: r2 => utf8Step2 b b2 r2
    | [] => none
  else if b < 0xF0 then
    match r with
    | b2 :: b3 :: r2 => utf8Step3 b b2 b3 r2
    | _ => none
  else if b < 0xF5 then
    match r with
    | b2 :: b3 :: b4 :: r2 => utf8Step4 b b2 b3 b4 r2
    | _ => none
  else none

/-- Fuelled UTF-8 decoding loop; every step consumes at least one byte, so
`length + 1` fuel always suffices. -/
def utf8DecodeF : Nat → List Nat → Option (List Char)
  | 0, _ => none
  | _ + 1, [] => some []
  | fuel + 1, b :: r =>
    match utf8Step b r with
    | none => none
    | some cr => (utf8DecodeF fuel cr.2).map (fun cs => cr.1 :: cs)

/-- Strict UTF-8 decoding: rejects truncated or malformed sequences,
overlong encodings, surrogate code points and values above U+10FFFF, as
`decodeURIComponent` does. -/
def utf8Decode (bs : List Nat) : Option (List Char) :=
  utf8DecodeF (bs.length + 1) bs

/-! ## JSON values

`decodeToken` ends in `JSON.parse`, and the test helper `createMockToken`
starts from `JSON.stringify`.  JSON values are modelled with numbers as
exact rationals (JS doubles are not modelled bit-for-bit) and objects as
ordered key/value sequences (duplicate keys allowed, later entries
shadowing earlier ones on property lookup, as in JS). -/

mutual
inductive Json where
  | null
  | bool (b : Bool)
  | num (q : ℚ)
  | str (s : String)
  | arr (xs : JsonList)
  | obj (xs : JsonObj)
deriving DecidableEq
inductive JsonList where
  | nil
  | cons (hd : Json) (tl : JsonList)
deriving DecidableEq
inductive JsonObj where
  | nil
  | cons (key : String) (jval : Json) (tl : JsonObj)
deriving DecidableEq
end

mutual
/-- Node-count measure used as parser fuel bound. -/
def sizeJ : Json → Nat
  | .null => 1
  | .bool _ => 1
  | .num _ => 1
  | .str _ => 1
  | .arr xs => 1 + sizeL xs
  | .obj xs => 1 + sizeO xs
def sizeL : JsonList → Nat
  | .nil => 0
  | .cons h t => 1 + sizeJ h + sizeL t
def sizeO : JsonObj → Nat
  | .nil => 0
  | .cons _ v t => 1 + sizeJ v + sizeO t
end

/-- JS property lookup on an object literal with possibly repeated keys:
the last occurrence wins. -/
def getFieldO : JsonObj → String → Option Json
  | .nil, _ => none
  | .cons k v t, key =>
    match getFieldO t key with
    | some r => some r
    | none => if k = key then some v else none

/-- JS property access `decoded.key`: `none` both for a missing property
and for a non-object (`undefined`). -/
def getField : Json → String → Option Json
  | .obj ms, k => getFieldO ms k
  | _, _ => none

/-- JS falsiness of a JSON value (`undefined` is handled by `Option`). -/
def jsFalsy : Json → Bool
  | .null => true
  | .bool b => !b
  | .num q => q = 0
  | .str s => s = ""
  | _ => false

/-! ### Printing (JSON.stringify)

Number printing is defined for integral values, the only numbers the
round-trip development quantifies over (printing a general double in JS
shortest-round-trip form is a floating-point concern outside this
embedding; the non-integral fallback below is arbitrary and never reached
under the `wfJ` hypothesis). -/

/-- The character of a decimal digit. -/
def digitChar (d : Nat) : Char := Char.ofNat (48 + d)

/-- Decimal digits, fueled so that the definition reduces by iota; the
fuel `n + 1` always suffices since the argument at least halves. -/
def natCharsAux : Nat → Nat → List Char
  | 0, _ => []
  | fuel + 1, n =>
    if n < 10 then [digitChar n]
    else natCharsAux fuel (n / 10) ++ [digitChar (n % 10)]

/-- Decimal digits of a natural number, most significant first. -/
def natChars (n : Nat) : List Char := natCharsAux (n + 1) n

/-- Decimal form of an integer. -/
def intChars (n : Int) : List Char :=
  if n < 0 then '-' :: natChars n.natAbs else natChars n.natAbs

/-- Lowercase hex digit. -/
def hexDigitChar (d : Nat) : Char :=
  if d < 10 then Char.ofNat (48 + d) else Char.ofNat (97 + (d - 10))

/-- `JSON.stringify` escaping of one string character. -/
def escChar (c : Char) : List Char :=
  if c = '"' then ['\\', '"']
  else if c = '\\' then ['\\', '\\']
  else if c.toNat = 8 then ['\\', 'b']
  else if c.toNat = 9 then ['\\', 't']
  else if c.toNat = 10 then ['\\', 'n']
  else if c.toNat = 12 then ['\\', 'f']
  else if c.toNat = 13 then ['\\', 'r']
  else if c.toNat < 32 then
    '\\' :: 'u' :: '0' :: '0' :: hexDigitChar (c.toNat / 16) ::
      [hexDigitChar (c.toNat % 16)]
  else [c]

/-- `JSON.stringify` escaping of string contents. -/
def escape (cs : List Char) : List Char := cs.flatMap escChar

/-- A JSON string literal: quotes around escaped contents. -/
def printString (s : String) : List Char := '"' :: (escape s.data ++ ['"'])

mutual
/-- Compact `JSON.stringify` output. -/
def printJ : Json → List Char
  | .null => 'n' :: 'u' :: 'l' :: ['l']
  | .bool true => 't' :: 'r' :: 'u' :: ['e']
  | .bool false => 'f' :: 'a' :: 'l' :: 's' :: ['e']
  | .num q => if q.den = 1 then intChars q.num else ['0']
  | .str s => printString s
  | .arr .nil => ['[', ']']
  | .arr (.cons h t) => '[' :: (printL (JsonList.cons h t) ++ [']'])
  | .obj .nil => ['{', '}']
  | .obj (.cons k v t) => '{' :: (printO (JsonObj.cons k v t) ++ ['}'])
def printL : JsonList → List Char
  | .nil => []
  | .cons h .nil => printJ h
  | .cons h (.cons h2 t) => printJ h ++ ',' :: printL (JsonList.cons h2 t)
def printO : JsonObj → List Char
  | .nil => []
  | .cons k v .nil => printString k ++ ':' :: printJ v
  | .cons k v (.cons k2 v2 t) =>
    printString k ++ ':' :: printJ v ++ ',' :: printO (JsonObj.cons k2 v2 t)
end

mutual
/-- Values whose numbers are all integral: the domain on which number
printing is exact. -/
def wfJ : Json → Bool
  | .null => true
  | .bool _ => true
  | .num q => q.den = 1
  | .str _ => true
  | .arr xs => wfL xs
  | .obj xs => wfO xs
def wfL : JsonList → Bool
  | .nil => true
  | .cons h t => wfJ h && wfL t
def wfO : JsonObj → Bool
  | .nil => true
  | .cons _ v t => wfJ v && wfO t
end

/-! ### Parsing (JSON.parse)

A fueled recursive-descent parser over character lists.  It follows the
JSON grammar that `JSON.parse` implements: optional whitespace (space, tab,
newline, carriage return), the three literals, numbers without leading
zeros, strings with the two-character and `\uXXXX` escapes, arrays and
objects.  One deliberate divergence is noted at `parseStringChars`: a lone
surrogate `\uXXXX` escape, which a JS string can hold but a Lean character
cannot, is decoded as U+FFFD instead (JS keeps the lone surrogate; the
decode still succeeds in both). -/

/-- ASCII decimal digit. -/
def isDigit (c : Char) : Bool := 48 ≤ c.toNat && c.toNat ≤ 57

/-- JSON insignificant whitespace. -/
def isWsChar (c : Char) : Bool :=
  c.toNat = 32 || c.toNat = 9 || c.toNat = 10 || c.toNat = 13

/-- Drop leading JSON whitespace. -/
def skipWs : List Char → List Char
  | c :: r => if isWsChar c then skipWs r else c :: r
  | [] => []

/-- Value of a hexadecimal digit (either case). -/
def hexVal (c : Char) : Option Nat :=
  if 48 ≤ c.toNat ∧ c.toNat ≤ 57 then some (c.toNat - 48)
  else if 97 ≤ c.toNat ∧ c.toNat ≤ 102 then some (c.toNat - 87)
  else if 65 ≤ c.toNat ∧ c.toNat ≤ 70 then some (c.toNat - 55)
  else none

/-- Resolve a `\uXXXX` escape with value `n`: a non-surrogate value is the
character itself; a high surrogate immediately followed by an escaped low
surrogate combines into the astral character; a lone surrogate becomes
U+FFFD (a JS string would keep the lone surrogate, which a Lean character
cannot represent — the parse succeeds in both cases). -/
def decodeUEscape (n : Nat) (r : List Char) : Char × List Char :=
  if n < 0xD800 ∨ 0xE000 ≤ n then (Char.ofNat n, r)
  else if n < 0xDC00 then
    match r with
    | '\\' :: 'u' :: g1 :: g2 :: g3 :: g4 :: r2 =>
      match hexVal g1, hexVal g2, hexVal g3, hexVal g4 with
      | some w1, some w2, some w3, some w4 =>
        let m := w1 * 4096 + w2 * 256 + w3 * 16 + w4
        if 0xDC00 ≤ m ∧ m < 0xE000 then
          (Char.ofNat (0x10000 + (n - 0xD800) * 1024 + (m - 0xDC00)), r2)
        else (Char.ofNat 0xFFFD, r)
      | _, _, _, _ => (Char.ofNat 0xFFFD, r)
    | _ => (Char.ofNat 0xFFFD, r)
  else (Char.ofNat 0xFFFD, r)

/-- The single character named by a two-character escape, if `e` is one of
the eight JSON short escapes. -/
def shortEscape (e : Char) : Option Char :=
  if e = '"' then some '"'
  else if e = '\\' then some '\\'
  else if e = '/' then some '/'
  else if e = 'b' then some (Char.ofNat 8)
  else if e = 'f' then some (Char.ofNat 12)
  else if e = 'n' then some (Char.ofNat 10)
  else if e = 'r' then some (Char.ofNat 13)
  else if e = 't' then some (Char.ofNat 9)
  else none

/-- String contents after an opening quote, fueled (one unit per produced
character) so that the definition reduces by iota. -/
def parseStringF : Nat → List Char → Option (List Char × List Char)
  | 0, _ => none
  | _ + 1, [] => none
  | fuel + 1, c :: rest =>
    if c = '"' then some ([], rest)
    else if c = '\\' then
      match rest with
      | [] => none
      | e :: r =>
        if e = 'u' then
          match r with
          | h1 :: h2 :: h3 :: h4 :: r2 =>
            match hexVal h1, hexVal h2, hexVal h3, hexVal h4 with
            | some v1, some v2, some v3, some v4 =>
              let p := decodeUEscape (v1 * 4096 + v2 * 256 + v3 * 16 + v4) r2
              (parseStringF fuel p.2).map (fun q => (p.1 :: q.1, q.2))
            | _, _, _, _ => none
          | _ => none
        else
          match shortEscape e with
          | some d => (parseStringF fuel r).map (fun p => (d :: p.1, p.2))
          | none => none
    else if c.toNat < 32 then none
    else (parseStringF fuel rest).map (fun p => (c :: p.1, p.2))

/-- String contents after an opening quote: the unescaped characters and
the input after the closing quote.  The fuel `length + 1` always suffices
since every step consumes at least one character. -/
def parseStringChars (cs : List Char) : Option (List Char × List Char) :=
  parseStringF (cs.length + 1) cs

/-- Consume a run of digits, extending accumulated value and count. -/
def takeDigits : List Char → Nat → Nat → Nat × Nat × List Char
  | c :: r, acc, cnt =>
    if isDigit c then takeDigits r (acc * 10 + (c.toNat - 48)) (cnt + 1)
    else (acc, cnt, c :: r)
  | [], acc, cnt => (acc, cnt, [])

/-- Apply the leading minus sign. -/
def applySign (neg : Bool) (m : ℚ) : ℚ := if neg then -m else m

/-- Optional exponent part of a JSON number, then finish the value. -/
def parseNumExp (neg : Bool) (m : ℚ) (cs : List Char) : Option (ℚ × List Char) :=
  match cs with
  | c :: r =>
    if c = 'e' ∨ c = 'E' then
      let sr : Bool × List Char :=
        match r with
        | '-' :: r2 => (true, r2)
        | '+' :: r2 => (false, r2)
        | _ => (false, r)
      match sr.2 with
      | d :: r2 =>
        if isDigit d then
          let t := takeDigits r2 (d.toNat - 48) 1
          some (applySign neg
            (m * (10 : ℚ) ^ (if sr.1 then -(t.1 : ℤ) else (t.1 : ℤ))), t.2.2)
        else none
      | [] => none
    else some (applySign neg m, c :: r)
  | [] => some (applySign neg m, [])

/-- Optional fraction part of a JSON number after the integer part. -/
def parseNumTail (neg : Bool) (v : Nat) (cs : List Char) : Option (ℚ × List Char) :=
  match cs with
  | '.' :: r =>
    match r with
    | c :: r2 =>
      if isDigit c then
        let t := takeDigits r2 (c.toNat - 48) 1
        parseNumExp neg ((v : ℚ) + (t.1 : ℚ) / (10 : ℚ) ^ t.2.1) t.2.2
      else none
    | [] => none
  | _ => parseNumExp neg (v : ℚ) cs

/-- A JSON number: optional minus, integer part without leading zeros,
optional fraction, optional exponent. -/
def parseNumber (cs : List Char) : Option (ℚ × List Char) :=
  let sr : Bool × List Char :=
    match cs with
    | '-' :: r => (true, r)
    | _ => (false, cs)
  match sr.2 with
  | c :: r =>
    if c = '0' then parseNumTail sr.1 0 r
    else if isDigit c then
      let t := takeDigits r (c.toNat - 48) 1
      parseNumTail sr.1 t.1 t.2.2
    else none
  | [] => none

mutual
/-- One JSON value, by recursive descent with explicit fuel. -/
def parseValue : Nat → List Char → Option (Json × List Char)
  | 0, _ => none
  | fuel + 1, cs =>
    match skipWs cs with
    | [] => none
    | c :: r =>
      if c = 'n' then
        match r with
        | 'u' :: 'l' :: 'l' :: rest => some (.null, rest)
        | _ => none
      else if c = 't' then
        match r with
        | 'r' :: 'u' :: 'e' :: rest => some (.bool true, rest)
        | _ => none
      else if c = 'f' then
        match r with
        | 'a' :: 'l' :: 's' :: 'e' :: rest => some (.bool false, rest)
        | _ => none
      else if c = '"' then
        (parseStringChars r).map (fun p => (.str ⟨p.1⟩, p.2))
      else if c = '[' then
        match skipWs r with
        | [] => none
        | c1 :: r1 =>
          if c1 = ']' then some (.arr .nil, r1)
          else (parseElems fuel (c1 :: r1)).map (fun p => (.arr p.1, p.2))
      else if c = '{' then
        match skipWs r with
        | [] => none
        | c1 :: r1 =>
          if c1 = '}' then some (.obj .nil, r1)
          else (parseMembers fuel (c1 :: r1)).map (fun p => (.obj p.1, p.2))
      else (parseNumber (c :: r)).map (fun p => (.num p.1, p.2))

/-- One or more array elements and the closing bracket. -/
def parseElems : Nat → List Char → Option (JsonList × List Char)
  | 0, _ => none
  | fuel + 1, cs =>
    match parseValue fuel cs with
    | none => none
    | some (v, r) =>
      match skipWs r with
      | [] => none
      | c :: r2 =>
        if c = ',' then
          match parseElems fuel r2 with
          | some (vs, rest) => some (.cons v vs, rest)
          | none => none
        else if c = ']' then some (.cons v .nil, r2)
        else none

/-- One or more object members and the closing brace. -/
def parseMembers : Nat → List Char → Option (JsonObj × List Char)
  | 0, _ => none
  | fuel + 1, cs =>
    match skipWs cs with
    | [] => none
    | c :: r =>
      if c = '"' then
        match parseStringChars r with
        | none => none
        | some (kcs, r1) =>
          match skipWs r1 with
          | [] => none
          | c2 :: r2 =>
            if c2 = ':' then
              match parseValue fuel r2 with
              | none => none
              | some (v, r3) =>
                match skipWs r3 with
                | [] => none
                | c3 :: r4 =>
                  if c3 = ',' then
                    match parseMembers fuel r4 with
                    | some (ms, rest) => some (.cons ⟨kcs⟩ v ms, rest)
                    | none => none
                  else if c3 = '}' then some (.cons ⟨kcs⟩ v .nil, r4)
                  else none
            else none
      else none
end

/-- `JSON.parse`: a single value with optional surrounding whitespace,
nothing after it. -/
def jsonParse (cs : List Char) : Option Json :=
  match parseValue (cs.length + 1) cs with
  | some (j, rest) => if skipWs rest = [] then some j else none
  | none => none

/-! ## auth.js: the client session manager

`decodeToken` takes `token.split('.')[1]`, converts base64url to base64,
applies `atob`, percent-decodes the bytes as UTF-8 and parses the JSON,
returning null (here `none`) if anything in that chain throws.
`isTokenExpiredOrExpiringSoon` compares the decoded `exp` against
`Date.now()` with a 300-second threshold.  localStorage is modelled as the
record of the two keys the module touches. -/

/-- `TOKEN_REFRESH_THRESHOLD` (auth.js line 8), in seconds. -/
def TOKEN_REFRESH_THRESHOLD : ℚ := 300

/-- Prepend a character onto the first piece of a split. -/
def splitDotPre (c : Char) : List (List Char) → List (List Char)
  | s :: ss => (c :: s) :: ss
  | [] => [[c]]

/-- JS `String.prototype.split` with a one-character separator. -/
def splitDot : List Char → List (List Char)
  | [] => [[]]
  | c :: r =>
    if c = '.' then [] :: splitDot r
    else splitDotPre c (splitDot r)

/-- `token.split('.')[1]`: the payload segment, when the token contains at
least one dot. -/
def payloadSegment (token : String) : Option (List Char) :=
  (splitDot token.data).get? 1

/-- `decodeToken` (auth.js lines 15-29): decode the payload segment of a
JWT without any signature verification; `none` when any step throws. -/
def decodeToken (token : String) : Option Json :=
  match payloadSegment token with
  | none => none
  | some seg =>
    match atob (seg.map b64OfB64Url) with
    | none => none
    | some bytes =>
      match utf8Decode bytes with
      | none => none
      | some cs => jsonParse cs

/-- JS `Number()` coercion of a string (used when a token's `exp` is a
string): trimmed; empty means 0; otherwise an optionally signed decimal.
`none` stands for NaN.  (Hex/octal/binary literals and `Infinity`, which
JS would also accept, are modelled as NaN; no theorem below quantifies
over tokens with a string `exp`.) -/
def jsStrToNumber (s : String) : Option ℚ :=
  let cs := (skipWs s.data).reverse
  let cs := (skipWs cs).reverse
  if cs = [] then some 0
  else
    let sr : Bool × List Char :=
      match cs with
      | '-' :: r => (true, r)
      | '+' :: r => (false, r)
      | _ => (false, cs)
    match sr.2 with
    | c :: r =>
      if isDigit c then
        let t := takeDigits r (c.toNat - 48) 1
        match parseNumTail false t.1 t.2.2 with
        | some (q, []) => some (applySign sr.1 q)
        | _ => none
      else if c = '.' then
        match r with
        | d :: r2 =>
          if isDigit d then
            let t := takeDigits r2 (d.toNat - 48) 1
            match parseNumExp false ((t.1 : ℚ) / (10 : ℚ) ^ t.2.1) t.2.2 with
            | some (q, []) => some (applySign sr.1 q)
            | _ => none
          else none
        | [] => none
      else none
    | [] => none

/-- JS `ToNumber` on a JSON value, as used by `decoded.exp * 1000`;
`none` stands for NaN.  Arrays, which JS would convert through their
string form, are modelled as NaN (noted; no theorem quantifies over
tokens with an array `exp`). -/
def jsToNumberOpt : Json → Option ℚ
  | .null => some 0
  | .bool b => some (if b then 1 else 0)
  | .num q => some q
  | .str s => jsStrToNumber s
  | .arr _ => none
  | .obj _ => none

/-- `isTokenExpiredOrExpiringSoon` (auth.js lines 36-47).  `now` is
`Date.now()` in milliseconds.  A NaN product (non-numeric `exp`) makes the
final comparison false, exactly as in JS. -/
def isTokenExpiredOrExpiringSoon (token : String) (now : Int) : Bool :=
  if token = "" then true
  else
    match decodeToken token with
    | none => true
    | some decoded =>
      if jsFalsy decoded then true
      else
        match getField decoded "exp" with
        | none => true
        | some expJ =>
          if jsFalsy expJ then true
          else
            match jsToNumberOpt expJ with
            | none => false
            | some expQ =>
              decide ((expQ * 1000 - (now : ℚ)) / 1000 < TOKEN_REFRESH_THRESHOLD)

/-- The localStorage keys the module uses: `token` and
`auth_credentials`. -/
structure Store where
  token : Option String
  credentials : Option String
deriving DecidableEq

/-- `getToken` (auth.js lines 53-55). -/
def getToken (st : Store) : Option String := st.token

/-- `setToken` (auth.js lines 61-63). -/
def setToken (st : Store) (t : String) : Store := ⟨some t, st.credentials⟩

/-- `removeToken` (auth.js lines 68-71): removes both keys. -/
def removeToken (st : Store) : Store := ⟨none, none⟩

/-- `isAuthenticated` (auth.js lines 77-80): `token &&
!isTokenExpiredOrExpiringSoon(token)` as a boolean (an absent or empty
token is falsy). -/
def isAuthenticated (st : Store) (now : Int) : Bool :=
  match getToken st with
  | none => false
  | some t => !(t = "") && !(isTokenExpiredOrExpiringSoon t now)

/-- `ensureValidToken` (auth.js lines 123-139): the stored token when
fresh; otherwise null, removing the stored token when one was present and
stale.  Returns the updated store alongside the result. -/
def ensureValidToken (st : Store) (now : Int) : Store × Option String :=
  match getToken st with
  | none => (st, none)
  | some t =>
    if t = "" then (st, none)
    else if !(isTokenExpiredOrExpiringSoon t now) then (st, some t)
    else (removeToken st, none)

/-- `authenticatedFetch` (auth.js lines 147-172).  `optsHeaders` are the
caller-supplied headers, `respStatus` the status of the single dispatched
response.  The second component is the headers of the dispatched request
(`none` when no request is made); the third is the outcome: the thrown
`TOKEN_EXPIRED` error or the response status. -/
def authenticatedFetch (st : Store) (now : Int)
    (optsHeaders : List (String × String)) (respStatus : Nat) :
    Store × Option (List (String × String)) × Except String Nat :=
  let p := ensureValidToken st now
  match p.2 with
  | none => (p.1, none, .error "TOKEN_EXPIRED")
  | some t =>
    let headers := optsHeaders ++ [("Authorization", "Bearer " ++ t)]
    if respStatus = 401 then (removeToken p.1, some headers, .error "TOKEN_EXPIRED")
    else (p.1, some headers, .ok respStatus)

/-! ## Definitions used by the round-trip development -/

/-- Value of a digit string (most significant first). -/
def digitsVal (ds : List Char) : Nat :=
  ds.foldl (fun a c => a * 10 + (c.toNat - 48)) 0

/-- The continuations a printed JSON value can be followed by inside a
printed document: nothing, or a delimiter. -/
def DelimOk (rest : List Char) : Prop :=
  rest = [] ∨ ∃ c r, rest = c :: r ∧ (c = ',' ∨ c = ']' ∨ c = '}')

/-- First characters a printed JSON value can start with. -/
def headOk (c : Char) : Bool :=
  c = 'n' || c = 't' || c = 'f' || c = '"' || c = '[' || c = '{' || c = '-' ||
    isDigit c

/-- The sextet stream of a byte list, as base64 encodes it (a final group
of one or two bytes padding its low bits with zeros). -/
def b64Sextets : List Nat → List Nat
  | x :: y :: z :: rest =>
    (x / 4) :: ((x % 4) * 16 + y / 16) :: ((y % 16) * 4 + z / 64) ::
      (z % 64) :: b64Sextets rest
  | [x, y] => [x / 4, (x % 4) * 16 + y / 16, (y % 16) * 4]
  | [x] => [x / 4, (x % 4) * 16]
  | [] => []

/-! ## Token assembly and concrete sample data

`mkToken` is the three-segment assembly the spec describes (and the test
helper `createMockToken` implements via `btoa`): header, base64url-encoded
JSON payload, signature. -/

/-- Assemble a token from a header, a JSON payload and a signature. -/
def mkToken (header : String) (payload : Json) (sig : String) : String :=
  header ++ "." ++ (⟨base64UrlEncode (utf8Encode (printJ payload))⟩ : String)
    ++ "." ++ sig

/-- A sample payload carrying `sub` and `exp` (seconds). -/
def samplePayload : JsonObj :=
  .cons "sub" (.str "u1") (.cons "exp" (.num 1700000000) .nil)

/-- A sample three-segment token built from `samplePayload`. -/
def sampleToken : String := mkToken "hdr" (.obj samplePayload) "sig"

/-! ## Theorems for the Dashboard, Profile, router and migration claims -/

theorem validSumInput_of_checks (x : JSNum) (h1 : jsIsNaN x = false)
    (h2 : jsIsInteger x = true) (h3 : jsLt x 0 = false)
    (h4 : jsGt x 1023 = false) : validSumInput x := by
  cases x with
  | nan => simp [jsIsNaN] at h1
  | posInf => simp [jsIsInteger] at h2
  | negInf => simp [jsIsInteger] at h2
  | num q =>
    simp only [jsIsInteger, decide_eq_true_eq] at h2
    simp only [jsLt, decide_eq_false_iff_not, not_lt] at h3
    simp only [jsGt, decide_eq_false_iff_not, not_lt] at h4
    refine ⟨q.num, ?_, ?_, ?_⟩
    · rw [Rat.coe_int_num_of_den_eq_one h2]
    · exact_mod_cast Rat.num_nonneg.mpr h3
    · have : (q.num : ℚ) ≤ 1023 := by rw [Rat.coe_int_num_of_den_eq_one h2]; exact h4
      exact_mod_cast this

/-- **C1.** If either input to the Dashboard sum calculator is not an
integer in the inclusive range [0, 1023], `calculateSum` stops with an
input-validation error message: the outcome is an `inputError` and no
request to `/api/sum` is dispatched (hence the credit balance cannot be
affected), regardless of the authentication state. -/
theorem calculateSum_invalid_input (a b : JSNum) (authed : Bool)
    (h : ¬ validSumInput a ∨ ¬ validSumInput b) :
    (∃ msg, calculateSum a b authed = .inputError msg) ∧
      (calculateSum a b authed).sendsRequest = false := by
  by_cases h1 : (jsIsNaN a || jsIsNaN b) = true
  · refine ⟨⟨"Please enter valid numbers", ?_⟩, ?_⟩ <;>
      simp [calculateSum, h1, SumOutcome.sendsRequest]
  · by_cases h2 : (!(jsIsInteger a) || !(jsIsInteger b)) = true
    · refine ⟨⟨"Please enter whole numbers (integers)", ?_⟩, ?_⟩ <;>
        simp_all [calculateSum, SumOutcome.sendsRequest]
    · by_cases h3 : (jsLt a 0 || jsGt a 1023 || jsLt b 0 || jsGt b 1023) = true
      · refine ⟨⟨"Both numbers must be between 0 and 1023", ?_⟩, ?_⟩ <;>
          simp_all [calculateSum, SumOutcome.sendsRequest]
      · exfalso
        simp only [Bool.or_eq_true, not_or, Bool.not_eq_true] at h1 h2 h3
        obtain ⟨hA, hB⟩ := h1
        obtain ⟨hA2, hB2⟩ := h2
        obtain ⟨⟨⟨hA3, hA4⟩, hB3⟩, hB4⟩ := h3
        rcases h with h | h
        · exact h (validSumInput_of_checks a hA (by simpa using hA2) hA3 hA4)
        · exact h (validSumInput_of_checks b hB (by simpa using hB2) hB3 hB4)

/-- Witness for C1: the NaN input is rejected with an error and no request. -/
theorem calculateSum_invalid_input_witness :
    (∃ msg, calculateSum .nan (.num 5) true = .inputError msg) ∧
      (calculateSum .nan (.num 5) true).sendsRequest = false :=
  calculateSum_invalid_input .nan (.num 5) true
    (Or.inl (by rintro ⟨n, h, -⟩; exact JSNum.noConfusion h))

theorem updatePassword_cases (current newPw confirm : String) :
    (∃ msg, updatePassword current newPw confirm = .error msg) ∨
      (current ≠ "" ∧ passwordPolicyOk newPw = true ∧ newPw = confirm ∧
        updatePassword current newPw confirm =
          .send ⟨"/users/me/password", "PATCH",
            [("current_password", current), ("password", newPw)]⟩) := by
  by_cases hc : current = ""
  · exact .inl ⟨"Current password is required", by simp [updatePassword, hc]⟩
  · by_cases hn : newPw = ""
    · exact .inl ⟨"New password is required", by simp [updatePassword, hc, hn]⟩
    · by_cases hl : utf16Len newPw < 8
      · exact .inl ⟨"Password must be at least 8 characters long",
          by simp [updatePassword, hc, hn, hl]⟩
      · by_cases hd : hasDigit newPw
        · by_cases hu : hasUpper newPw
          · by_cases hlo : hasLower newPw
            · by_cases he : newPw = confirm
              · refine .inr ⟨hc, ?_, he, ?_⟩
                · simp [passwordPolicyOk, hd, hu, hlo, Nat.le_of_not_lt hl]
                · subst he; simp [updatePassword, hc, hn, hl, hd, hu, hlo]
              · exact .inl ⟨"Passwords do not match",
                  by simp [updatePassword, hc, hn, hl, hd, hu, hlo, he]⟩
            · exact .inl ⟨"Password must contain at least one lowercase letter",
                by simp [updatePassword, hc, hn, hl, hd, hu, hlo]⟩
          · exact .inl ⟨"Password must contain at least one uppercase letter",
              by simp [updatePassword, hc, hn, hl, hd, hu]⟩
        · exact .inl ⟨"Password must contain at least one number",
            by simp [updatePassword, hc, hn, hl, hd]⟩

/-- **C5.** The Profile password-change handler requires a current password
and enforces the complexity policy (≥ 8 characters, ≥ 1 digit, ≥ 1 uppercase,
≥ 1 lowercase, matching confirmation): any violating input yields an error
message and no request (`error` outcomes carry no request by construction),
and any compliant input sends exactly
`{current_password, password}` via `PATCH /users/me/password`. -/
theorem updatePassword_policy (current newPw confirm : String) :
    ((current = "" ∨ passwordPolicyOk newPw = false ∨ newPw ≠ confirm) →
      ∃ msg, updatePassword current newPw confirm = .error msg) ∧
    (current ≠ "" → passwordPolicyOk newPw = true → newPw = confirm →
      updatePassword current newPw confirm =
        .send ⟨"/users/me/password", "PATCH",
          [("current_password", current), ("password", newPw)]⟩) := by
  rcases updatePassword_cases current newPw confirm with h | ⟨hc, hp, he, hs⟩
  · refine ⟨fun _ => h, fun hc hp he => ?_⟩
    obtain ⟨msg, hmsg⟩ := h
    exfalso
    subst he
    by_cases hn : newPw = ""
    · rw [hn] at hp; simp [passwordPolicyOk, utf16Len] at hp
    · simp only [passwordPolicyOk, Bool.and_eq_true, decide_eq_true_eq] at hp
      obtain ⟨⟨⟨hl, hd⟩, hu⟩, hlo⟩ := hp
      simp [updatePassword, hc, hn, Nat.not_lt.mpr hl, hd, hu, hlo] at hmsg
  · exact ⟨fun hviol => by
      rcases hviol with h | h | h
      · exact absurd h hc
      · rw [hp] at h; exact Bool.noConfusion h
      · exact absurd he h,
     fun _ _ _ => hs⟩

/-- Witness for C5: a compliant input produces exactly the PATCH request,
and a too-short password produces an error. -/
theorem updatePassword_policy_witness :
    updatePassword "old" "Abcdef12" "Abcdef12" =
      .send ⟨"/users/me/password", "PATCH",
        [("current_password", "old"), ("password", "Abcdef12")]⟩ ∧
    ∃ msg, updatePassword "old" "Ab1" "Ab1" = .error msg :=
  ⟨(updatePassword_policy "old" "Abcdef12" "Abcdef12").2 (by decide) (by decide) rfl,
   (updatePassword_policy "old" "Ab1" "Ab1").1 (Or.inr (Or.inl (by decide)))⟩

/-- **C8.** The navigation guard: a `requiresAuth` route is never entered
unauthenticated (such navigations go to `/login`), a `requiresAdmin` route is
never entered while `isAdmin()` resolves false (such navigations are
redirected — to `/profile` when not already bounced to `/login`), and a
navigation proceeds exactly when every flag's check passes. -/
theorem beforeEach_guard (meta : RouteMeta) (authed admin : Bool) :
    (meta.requiresAuth = true → authed = false →
      beforeEach meta authed admin = .redirect "/login") ∧
    (meta.requiresAdmin = true → admin = false →
      beforeEach meta authed admin ≠ .proceed) ∧
    (meta.requiresAdmin = true → admin = false →
      (meta.requiresAuth = true → authed = true) →
      beforeEach meta authed admin = .redirect "/profile") ∧
    (beforeEach meta authed admin = .proceed ↔
      (meta.requiresAuth = true → authed = true) ∧
        (meta.requiresAdmin = true → admin = true)) := by
  obtain ⟨ra, rd⟩ := meta
  cases ra <;> cases rd <;> cases authed <;> cases admin <;>
    simp [beforeEach]

/-- Witness for C8: an unauthenticated hit on an admin route goes to
`/login`; an authenticated non-admin hit goes to `/profile`. -/
theorem beforeEach_guard_witness :
    beforeEach ⟨true, true⟩ false false = .redirect "/login" ∧
      beforeEach ⟨true, true⟩ true false = .redirect "/profile" :=
  ⟨(beforeEach_guard ⟨true, true⟩ false false).1 rfl rfl,
   (beforeEach_guard ⟨true, true⟩ true false).2.2.1 rfl rfl (fun _ => rfl)⟩

/-- **C6.** A credit balance row created for a user without one starts at the
configured value 10: the `user_credits` schema defaults `credits` to 10, the
migration inserts `COALESCE(credits, 10)` (hence 10 when the user has no
legacy credits value) for every user lacking a row, and the admin create-user
form initializes its credits field to 10. -/
theorem credits_default_ten :
    userCreditsDefault = 10 ∧ formCreditsInit = 10 ∧
    ∀ (users : List UserRow) (existing : List CreditRow) (u : UserRow),
      u ∈ users → (∀ r ∈ existing, r.user_id ≠ u.id) → u.legacyCredits = none →
      (⟨u.id, 10⟩ : CreditRow) ∈ migrateCredits users existing := by
  refine ⟨rfl, rfl, fun users existing u hu hno hnone => ?_⟩
  unfold migrateCredits
  refine List.mem_append_right _ ?_
  refine List.mem_map.mpr ⟨u, List.mem_filter.mpr ⟨hu, ?_⟩, by rw [hnone]; rfl⟩
  simp only [Bool.not_eq_true', List.any_eq_false]
  intro r hr
  simpa using hno r hr

/-- Witness for C6: migrating a single legacy-credits-free user into an
empty `user_credits` table yields a row with 10 credits. -/
theorem credits_default_ten_witness :
    (⟨3, 10⟩ : CreditRow) ∈ migrateCredits [⟨3, none⟩] [] :=
  credits_default_ten.2.2 [⟨3, none⟩] [] ⟨3, none⟩ (by simp) (by simp) rfl

/-! ## Theorems about the client session manager -/

theorem decodeToken_congr {t1 t2 : String}
    (h : payloadSegment t1 = payloadSegment t2) :
    decodeToken t1 = decodeToken t2 := by
  unfold decodeToken
  rw [h]

theorem payloadSegment_empty : payloadSegment "" = none := rfl

theorem expired_empty {now : Int} :
    isTokenExpiredOrExpiringSoon "" now = true := by
  simp [isTokenExpiredOrExpiringSoon]

theorem expired_of_payloadSegment_none {t : String} {now : Int}
    (h : payloadSegment t = none) :
    isTokenExpiredOrExpiringSoon t now = true := by
  unfold isTokenExpiredOrExpiringSoon
  by_cases ht : t = ""
  · simp [ht]
  · have hd : decodeToken t = none := by unfold decodeToken; rw [h]
    simp [ht, hd]

theorem expired_of_decodeToken_none {t : String} {now : Int}
    (h : decodeToken t = none) :
    isTokenExpiredOrExpiringSoon t now = true := by
  unfold isTokenExpiredOrExpiringSoon
  by_cases ht : t = ""
  · simp [ht]
  · simp [ht, h]

/-- A token whose decode chain yields no `exp` field (undecodable input,
non-object payload, or object without `exp`) is reported expiring. -/
theorem expired_of_expfield_none {token : String} {now : Int}
    (h : (decodeToken token).bind (fun d => getField d "exp") = none) :
    isTokenExpiredOrExpiringSoon token now = true := by
  rcases hd : decodeToken token with _ | d
  · exact expired_of_decodeToken_none hd
  · rw [hd] at h
    simp only [Option.bind] at h
    by_cases ht : token = ""
    · unfold isTokenExpiredOrExpiringSoon; simp [ht]
    · unfold isTokenExpiredOrExpiringSoon
      simp [ht, hd, h]

/-- A token decoding to an object whose `exp` is the number 0 (falsy in
JS) is reported expiring. -/
theorem expired_of_exp_zero {token : String} {now : Int}
    (h : (decodeToken token).bind (fun d => getField d "exp") =
      some (.num 0)) :
    isTokenExpiredOrExpiringSoon token now = true := by
  rcases hd : decodeToken token with _ | d
  · exact expired_of_decodeToken_none hd
  · rw [hd] at h
    simp only [Option.bind] at h
    have ht : token ≠ "" := by
      intro he; rw [he] at hd; exact Option.noConfusion hd
    obtain ⟨ms, rfl⟩ : ∃ ms, d = .obj ms := by
      cases d with
      | obj ms => exact ⟨ms, rfl⟩
      | null => simp [getField] at h
      | bool b => simp [getField] at h
      | num qq => simp [getField] at h
      | str s => simp [getField] at h
      | arr xs => simp [getField] at h
    unfold isTokenExpiredOrExpiringSoon
    simp [ht, hd, h, jsFalsy]

/-- A token decoding to an object whose `exp` is a nonzero number is
reported expiring exactly by the threshold comparison the code makes. -/
theorem expired_eq_of_exp_num {token : String} {now : Int} {q : ℚ}
    (h : (decodeToken token).bind (fun d => getField d "exp") =
      some (.num q)) (hq : q ≠ 0) :
    isTokenExpiredOrExpiringSoon token now =
      decide ((q * 1000 - (now : ℚ)) / 1000 < TOKEN_REFRESH_THRESHOLD) := by
  rcases hd : decodeToken token with _ | d
  · rw [hd] at h; simp at h
  · rw [hd] at h
    simp only [Option.bind] at h
    have ht : token ≠ "" := by
      intro he; rw [he] at hd; exact Option.noConfusion hd
    obtain ⟨ms, rfl⟩ : ∃ ms, d = .obj ms := by
      cases d with
      | obj ms => exact ⟨ms, rfl⟩
      | null => simp [getField] at h
      | bool b => simp [getField] at h
      | num qq => simp [getField] at h
      | str s => simp [getField] at h
      | arr xs => simp [getField] at h
    have h2 : jsFalsy (Json.num q) = false := by simp [jsFalsy, hq]
    unfold isTokenExpiredOrExpiringSoon
    simp [ht, hd, h, jsFalsy, h2, jsToNumberOpt]
    exact fun hq0 => absurd hq0 hq

/-- The `exp` field of the sample token, by evaluation. -/
theorem sampleToken_expfield :
    (decodeToken sampleToken).bind (fun d => getField d "exp") =
      some (.num 1700000000) := by decide

/-- The sample token is fresh at the epoch. -/
theorem sampleToken_fresh :
    isTokenExpiredOrExpiringSoon sampleToken 0 = false := by
  rw [expired_eq_of_exp_num sampleToken_expfield (by norm_num)]
  rw [decide_eq_false_iff_not, TOKEN_REFRESH_THRESHOLD]
  norm_num

/-- The sample token is stale at its own expiry instant. -/
theorem sampleToken_stale :
    isTokenExpiredOrExpiringSoon sampleToken 1700000000000 = true := by
  rw [expired_eq_of_exp_num sampleToken_expfield (by norm_num)]
  rw [decide_eq_true_eq, TOKEN_REFRESH_THRESHOLD]
  norm_num

/-- `ensureValidToken` yields the fresh sample token. -/
theorem ensureValidToken_sample :
    ensureValidToken ⟨some sampleToken, none⟩ 0 =
      (⟨some sampleToken, none⟩, some sampleToken) := by
  have hne : ¬ sampleToken = "" := by decide
  unfold ensureValidToken getToken
  simp [sampleToken_fresh, hne]

/-- **C2.** `authenticatedFetch`: when `ensureValidToken` yields null the
call throws `TOKEN_EXPIRED` and dispatches nothing; when it yields a token
the single dispatched request (the model allows at most one by
construction, so nothing is ever retried) carries
`Authorization: Bearer <token>`; and a 401 response clears the stored
token and throws `TOKEN_EXPIRED`. -/
theorem authenticatedFetch_contract (st : Store) (now : Int)
    (optsHeaders : List (String × String)) (respStatus : Nat) :
    ((ensureValidToken st now).2 = none →
      authenticatedFetch st now optsHeaders respStatus =
        ((ensureValidToken st now).1, none, .error "TOKEN_EXPIRED")) ∧
    (∀ t, (ensureValidToken st now).2 = some t →
      (authenticatedFetch st now optsHeaders respStatus).2.1 =
        some (optsHeaders ++ [("Authorization", "Bearer " ++ t)])) ∧
    (respStatus = 401 → ∀ t, (ensureValidToken st now).2 = some t →
      (authenticatedFetch st now optsHeaders respStatus).2.2 =
          .error "TOKEN_EXPIRED" ∧
        (authenticatedFetch st now optsHeaders respStatus).1.token = none) := by
  refine ⟨fun h => ?_, fun t h => ?_, fun h401 t h => ?_⟩
  · simp [authenticatedFetch, h]
  · rcases h4 : decide (respStatus = 401) with _ | _
    · simp at h4
      simp [authenticatedFetch, h, h4]
    · simp at h4
      simp [authenticatedFetch, h, h4, removeToken]
  · subst h401
    simp [authenticatedFetch, h, removeToken]

/-- Witness for C2: an empty store dispatches nothing and throws; a store
with a fresh sample token hitting a 401 clears the token and throws. -/
theorem authenticatedFetch_contract_witness :
    authenticatedFetch ⟨none, none⟩ 0 [] 200 =
        (⟨none, none⟩, none, .error "TOKEN_EXPIRED") ∧
      (authenticatedFetch ⟨some sampleToken, none⟩ 0 [] 401).2.2 =
          .error "TOKEN_EXPIRED" ∧
        (authenticatedFetch ⟨some sampleToken, none⟩ 0 [] 401).1.token = none :=
  ⟨(authenticatedFetch_contract ⟨none, none⟩ 0 [] 200).1 rfl,
   (authenticatedFetch_contract ⟨some sampleToken, none⟩ 0 [] 401).2.2 rfl
     sampleToken (by rw [ensureValidToken_sample])⟩

/-- **C4 counterexample.** The claim says a stored token that is absent or
stale is discarded.  A stored *empty-string* token is a stored token
(localStorage distinguishes `""` from a missing key) and is never fresh,
yet `ensureValidToken` returns null through the `!token` guard without
removing it: the post-state still holds the empty token. -/
theorem ensureValidToken_empty_not_discarded :
    ensureValidToken ⟨some "", none⟩ 0 = (⟨some "", none⟩, none) ∧
      (ensureValidToken ⟨some "", none⟩ 0).1.token ≠ none := by
  constructor
  · rfl
  · intro h
    simp [ensureValidToken, getToken] at h

/-- **C4 (amended).** `ensureValidToken` returns the stored token and
leaves the store unchanged when the token is fresh; returns null leaving
the store unchanged when no token is stored or the stored token is the
empty string; and removes the stored token (and the cached credentials)
and returns null when a nonempty stored token is not fresh.  No silent
refresh or re-login exists: the only outcomes are the stored token or
null. -/
theorem ensureValidToken_spec (st : Store) (now : Int) :
    (∀ t, getToken st = some t → t ≠ "" →
      isTokenExpiredOrExpiringSoon t now = false →
      ensureValidToken st now = (st, some t)) ∧
    (getToken st = none → ensureValidToken st now = (st, none)) ∧
    (getToken st = some "" → ensureValidToken st now = (st, none)) ∧
    (∀ t, getToken st = some t → t ≠ "" →
      isTokenExpiredOrExpiringSoon t now = true →
      ensureValidToken st now = (⟨none, none⟩, none)) := by
  refine ⟨fun t ht hne hfresh => ?_, fun h => ?_, fun h => ?_,
    fun t ht hne hstale => ?_⟩
  · simp [ensureValidToken, ht, hne, hfresh]
  · simp [ensureValidToken, h]
  · simp [ensureValidToken, h]
  · simp [ensureValidToken, removeToken, ht, hne, hstale]

/-- Witness for C4 (amended): the fresh sample token is returned
unchanged; the same token gone stale is removed. -/
theorem ensureValidToken_spec_witness :
    ensureValidToken ⟨some sampleToken, none⟩ 0 =
        (⟨some sampleToken, none⟩, some sampleToken) ∧
      ensureValidToken ⟨some sampleToken, none⟩ 1700000000000 =
        (⟨none, none⟩, none) :=
  ⟨(ensureValidToken_spec ⟨some sampleToken, none⟩ 0).1 sampleToken rfl
      (by decide) sampleToken_fresh,
   (ensureValidToken_spec ⟨some sampleToken, none⟩ 1700000000000).2.2.2
      sampleToken rfl (by decide) sampleToken_stale⟩

/-- **C9.** Noninterference in the non-payload segments: two tokens with
the same second (payload) segment are treated identically by the freshness
check and by `isAuthenticated`, whatever their header and signature
segments. -/
theorem payload_noninterference (t1 t2 : String) (now : Int)
    (st1 st2 : Store) (h : payloadSegment t1 = payloadSegment t2)
    (h1 : getToken st1 = some t1) (h2 : getToken st2 = some t2) :
    isTokenExpiredOrExpiringSoon t1 now = isTokenExpiredOrExpiringSoon t2 now ∧
      isAuthenticated st1 now = isAuthenticated st2 now := by
  have hexp : isTokenExpiredOrExpiringSoon t1 now =
      isTokenExpiredOrExpiringSoon t2 now := by
    by_cases e1 : t1 = ""
    · subst e1
      have hseg : payloadSegment t2 = none := by rw [← h]; rfl
      rw [expired_of_payloadSegment_none hseg]
      simp [isTokenExpiredOrExpiringSoon]
    · by_cases e2 : t2 = ""
      · subst e2
        have hseg : payloadSegment t1 = none := by rw [h]; rfl
        rw [expired_of_payloadSegment_none hseg]
        simp [isTokenExpiredOrExpiringSoon]
      · unfold isTokenExpiredOrExpiringSoon
        rw [decodeToken_congr h]
        simp [e1, e2]
  refine ⟨hexp, ?_⟩
  unfold isAuthenticated
  rw [h1, h2]
  dsimp only
  rw [hexp]
  by_cases e1 : t1 = "" <;> by_cases e2 : t2 = ""
  · simp [e1, e2]
  · have hseg : payloadSegment t2 = none := by rw [← h, e1]; rfl
    simp [e1, e2, @expired_of_payloadSegment_none t2 now hseg]
  · have hseg : payloadSegment t1 = none := by rw [h, e2]; rfl
    have ht2 : isTokenExpiredOrExpiringSoon t2 now = true := by
      rw [← hexp]; exact @expired_of_payloadSegment_none t1 now hseg
    simp [e1, e2, ht2, expired_empty]
  · simp [e1, e2]

/-- Witness for C9: two concrete tokens sharing only the payload segment
get identical verdicts. -/
theorem payload_noninterference_witness :
    isTokenExpiredOrExpiringSoon ("aaa." ++ "eHl6" ++ ".bbb") 0 =
        isTokenExpiredOrExpiringSoon ("c." ++ "eHl6" ++ ".ddddd") 0 ∧
      isAuthenticated ⟨some ("aaa." ++ "eHl6" ++ ".bbb"), none⟩ 0 =
        isAuthenticated ⟨some ("c." ++ "eHl6" ++ ".ddddd"), none⟩ 0 :=
  payload_noninterference ("aaa." ++ "eHl6" ++ ".bbb")
    ("c." ++ "eHl6" ++ ".ddddd") 0
    ⟨some ("aaa." ++ "eHl6" ++ ".bbb"), none⟩
    ⟨some ("c." ++ "eHl6" ++ ".ddddd"), none⟩ (by decide) rfl rfl

/-- **C10.** `decodeToken` is a total function into `Option Json`: every
JavaScript failure mode (no dot separator, characters outside the base64
alphabet, bytes that are not UTF-8, text that is not JSON) is caught and
becomes `none` rather than an exception — the `try`/`catch` wraps the
whole chain.  Consequently a stored token that fails to decode makes the
freshness check report expiry and `isAuthenticated` report false rather
than raising. -/
theorem decodeToken_malformed_safe (token : String) (now : Int) (st : Store)
    (hst : getToken st = some token) (h : decodeToken token = none) :
    isTokenExpiredOrExpiringSoon token now = true ∧
      isAuthenticated st now = false := by
  have hexp := @expired_of_decodeToken_none token now h
  refine ⟨hexp, ?_⟩
  unfold isAuthenticated
  rw [hst]
  dsimp only
  rw [hexp]
  simp

/-- Witness for C10: a dotless token decodes to `none` and is reported
unauthenticated. -/
theorem decodeToken_malformed_safe_witness :
    isTokenExpiredOrExpiringSoon "garbage" 0 = true ∧
      isAuthenticated ⟨some "garbage", none⟩ 0 = false :=
  decodeToken_malformed_safe "garbage" 0 ⟨some "garbage", none⟩ rfl (by decide)

/-- **C3.** The freshness check decodes the token's embedded `exp` locally
(its input is the token string alone — no key or signature is consulted)
and, for any clock at or after the epoch: when the token is undecodable,
not an object, or lacks `exp`, it reports expiring; and when the decoded
`exp` is a number, it reports *not* expiring (fresh) exactly when the time
remaining until `exp`, in seconds, is at least the 300-second
threshold. -/
theorem freshness_threshold (token : String) (now : Int) (hnow : 0 ≤ now) :
    ((decodeToken token).bind (fun d => getField d "exp") = none →
      isTokenExpiredOrExpiringSoon token now = true) ∧
    (∀ q : ℚ, (decodeToken token).bind (fun d => getField d "exp") =
        some (.num q) →
      (isTokenExpiredOrExpiringSoon token now = false ↔
        300 ≤ q - (now : ℚ) / 1000)) := by
  refine ⟨fun h => expired_of_expfield_none h, fun q h => ?_⟩
  by_cases hq : q = 0
  · subst hq
    rw [expired_of_exp_zero h]
    simp only [Bool.true_eq_false, false_iff, not_le]
    have hn : (0 : ℚ) ≤ (now : ℚ) := by exact_mod_cast hnow
    have hdiv : (0 : ℚ) ≤ (now : ℚ) / 1000 := by positivity
    linarith
  · rw [expired_eq_of_exp_num h hq]
    have harith : (q * 1000 - (now : ℚ)) / 1000 = q - (now : ℚ) / 1000 := by
      ring
    rw [harith, TOKEN_REFRESH_THRESHOLD]
    rw [decide_eq_false_iff_not, not_lt]

/-- Witness for C3: the sample token, fresh at the epoch. -/
theorem freshness_threshold_witness :
    isTokenExpiredOrExpiringSoon sampleToken 0 = false :=
  ((freshness_threshold sampleToken 0 (by norm_num)).2 1700000000
      (by decide)).mpr (by norm_num)


/-! ## Round-trip development: characters and digits -/

theorem char_eq_of_toNat {c d : Char} (h : c.toNat = d.toNat) : c = d :=
  Char.eq_of_val_eq (UInt32.ext h)

theorem toNat_charOfNat {m : Nat} (h : m.isValidChar) :
    (Char.ofNat m).toNat = m := by
  unfold Char.ofNat
  rw [dif_pos h]
  show (Char.ofNatAux m h).toNat = m
  unfold Char.ofNatAux
  simp [Char.toNat, UInt32.toNat, UInt32.ofNat']

theorem toNat_digitChar {d : Nat} (h : d < 10) :
    (digitChar d).toNat = 48 + d := by
  unfold digitChar
  exact toNat_charOfNat (Or.inl (by omega))

theorem isDigit_digitChar {d : Nat} (h : d < 10) :
    isDigit (digitChar d) = true := by
  simp [isDigit, toNat_digitChar h]
  omega

theorem digitChar_ne_zero {d : Nat} (h1 : 0 < d) (h2 : d < 10) :
    digitChar d ≠ '0' := by
  intro he
  have := toNat_digitChar h2
  rw [he] at this
  simp at this
  omega

theorem natCharsAux_congr (n : Nat) : ∀ f1 f2, n < f1 → n < f2 →
    natCharsAux f1 n = natCharsAux f2 n := by
  induction n using Nat.strong_induction_on with
  | _ n IH =>
    intro f1 f2 h1 h2
    rcases f1 with _ | g1
    · omega
    rcases f2 with _ | g2
    · omega
    simp only [natCharsAux]
    by_cases h10 : n < 10
    · simp [h10]
    · simp only [h10, if_false]
      have hdiv : n / 10 < n := Nat.div_lt_self (by omega) (by omega)
      rw [IH (n / 10) hdiv g1 g2 (by omega) (by omega)]

theorem natChars_unfold (n : Nat) : natChars n =
    if n < 10 then [digitChar n]
    else natChars (n / 10) ++ [digitChar (n % 10)] := by
  show natCharsAux (n + 1) n = _
  by_cases h10 : n < 10
  · simp [natCharsAux, h10]
  · have hdiv : n / 10 < n := Nat.div_lt_self (by omega) (by omega)
    have h1 : natCharsAux (n + 1) n =
        natCharsAux n (n / 10) ++ [digitChar (n % 10)] := by
      simp [natCharsAux, h10]
    rw [h1, if_neg h10]
    show _ = natCharsAux (n / 10 + 1) (n / 10) ++ _
    rw [natCharsAux_congr (n / 10) n (n / 10 + 1) (by omega) (by omega)]

theorem natChars_digits (n : Nat) : ∀ c ∈ natChars n, isDigit c = true := by
  induction n using Nat.strong_induction_on with
  | _ n IH =>
    rw [natChars_unfold]
    by_cases h10 : n < 10
    · simp [h10]
      exact isDigit_digitChar h10
    · have hdiv : n / 10 < n := Nat.div_lt_self (by omega) (by omega)
      simp only [h10, if_false]
      intro c hc
      rcases List.mem_append.mp hc with h | h
      · exact IH (n / 10) hdiv c h
      · rcases List.mem_singleton.mp h with rfl
        exact isDigit_digitChar (Nat.mod_lt _ (by omega))

theorem foldl_digits (ds : List Char) : ∀ a : Nat,
    ds.foldl (fun a c => a * 10 + (c.toNat - 48)) a =
      a * 10 ^ ds.length + digitsVal ds := by
  induction ds with
  | nil => intro a; simp [digitsVal]
  | cons c t IH =>
    intro a
    show t.foldl _ (a * 10 + (c.toNat - 48)) = _
    rw [IH]
    have : digitsVal (c :: t) = (c.toNat - 48) * 10 ^ t.length + digitsVal t := by
      show t.foldl _ (0 * 10 + (c.toNat - 48)) = _
      rw [IH]
      ring_nf
    rw [this]
    simp [List.length_cons]
    ring

theorem digitsVal_cons (c : Char) (t : List Char) :
    digitsVal (c :: t) = (c.toNat - 48) * 10 ^ t.length + digitsVal t := by
  show t.foldl _ (0 * 10 + (c.toNat - 48)) = _
  rw [foldl_digits]
  ring_nf

theorem digitsVal_append_singleton (xs : List Char) (c : Char) :
    digitsVal (xs ++ [c]) = digitsVal xs * 10 + (c.toNat - 48) := by
  unfold digitsVal
  rw [List.foldl_append]
  rfl

theorem digitsVal_natChars (n : Nat) : digitsVal (natChars n) = n := by
  induction n using Nat.strong_induction_on with
  | _ n IH =>
    rw [natChars_unfold]
    by_cases h10 : n < 10
    · simp [h10, digitsVal_cons, digitsVal, toNat_digitChar h10]
    · have hdiv : n / 10 < n := Nat.div_lt_self (by omega) (by omega)
      simp only [h10, if_false]
      rw [digitsVal_append_singleton, IH (n / 10) hdiv,
        toNat_digitChar (Nat.mod_lt _ (by omega))]
      omega

theorem natChars_head_pos (n : Nat) (hn : 0 < n) :
    ∃ c cs, natChars n = c :: cs ∧ isDigit c = true ∧ c ≠ '0' := by
  induction n using Nat.strong_induction_on with
  | _ n IH =>
    rw [natChars_unfold]
    by_cases h10 : n < 10
    · exact ⟨digitChar n, [], by simp [h10], isDigit_digitChar h10,
        digitChar_ne_zero hn h10⟩
    · have hdiv : n / 10 < n := Nat.div_lt_self (by omega) (by omega)
      obtain ⟨c, cs, heq, hdig, hne⟩ :=
        IH (n / 10) hdiv (by omega : 0 < n / 10)
      exact ⟨c, cs ++ [digitChar (n % 10)], by simp [h10, heq], hdig, hne⟩

theorem natChars_zero : natChars 0 = ['0'] := by
  rw [natChars_unfold]
  rfl

/-! ## Round-trip development: numbers -/

theorem delim_not_digit {rest : List Char} (h : DelimOk rest) :
    rest = [] ∨ ∃ c r, rest = c :: r ∧ isDigit c = false := by
  rcases h with rfl | ⟨c, r, rfl, hc⟩
  · exact Or.inl rfl
  · refine Or.inr ⟨c, r, rfl, ?_⟩
    rcases hc with rfl | rfl | rfl <;> decide

theorem takeDigits_spec (ds : List Char) (hds : ∀ c ∈ ds, isDigit c = true)
    (rest : List Char)
    (hrest : rest = [] ∨ ∃ c r, rest = c :: r ∧ isDigit c = false) :
    ∀ acc cnt, takeDigits (ds ++ rest) acc cnt =
      (acc * 10 ^ ds.length + digitsVal ds, cnt + ds.length, rest) := by
  induction ds with
  | nil =>
    intro acc cnt
    rcases hrest with rfl | ⟨c, r, rfl, hc⟩
    · simp [takeDigits, digitsVal]
    · simp [takeDigits, hc, digitsVal]
  | cons c t IH =>
    intro acc cnt
    have hc : isDigit c = true := hds c (List.mem_cons_self c t)
    show takeDigits (c :: (t ++ rest)) acc cnt = _
    rw [takeDigits, if_pos hc]
    rw [IH (fun d hd => hds d (List.mem_cons_of_mem c hd))]
    rw [digitsVal_cons]
    simp [List.length_cons]
    constructor
    · ring
    · omega

theorem parseNumExp_delim (neg : Bool) (m : ℚ) (rest : List Char)
    (hrest : DelimOk rest) :
    parseNumExp neg m rest = some (applySign neg m, rest) := by
  rcases hrest with rfl | ⟨c, r, rfl, hc⟩
  · rfl
  · rcases hc with rfl | rfl | rfl <;> rfl

theorem parseNumTail_delim (neg : Bool) (v : Nat) (rest : List Char)
    (hrest : DelimOk rest) :
    parseNumTail neg v rest = some (applySign neg (v : ℚ), rest) := by
  rcases hrest with rfl | ⟨c, r, rfl, hc⟩
  · rfl
  · rcases hc with rfl | rfl | rfl <;> rfl


theorem parseNumber_match_head (c : Char) (hc : c ≠ '-') (tl : List Char) :
    (match c :: tl with
      | '-' :: r => ((true : Bool), r)
      | _ => ((false : Bool), c :: tl)) = ((false : Bool), c :: tl) := by
  split
  · rename_i r heq
    rw [List.cons_eq_cons] at heq
    exact absurd heq.1 hc
  · rfl

theorem parseNumber_cons_digit (c : Char) (hdig : isDigit c = true)
    (hne : c ≠ '0') (tl : List Char) :
    parseNumber (c :: tl) =
      parseNumTail false (takeDigits tl (c.toNat - 48) 1).1
        (takeDigits tl (c.toNat - 48) 1).2.2 := by
  have hc : c ≠ '-' := by
    intro he
    rw [he] at hdig
    simp [isDigit] at hdig
  unfold parseNumber
  rw [parseNumber_match_head c hc tl]
  simp [hne, hdig]

theorem parseNumber_zero_head (tl : List Char) :
    parseNumber ('0' :: tl) = parseNumTail false 0 tl := rfl

theorem parseNumber_minus_digit (c : Char) (hdig : isDigit c = true)
    (hne : c ≠ '0') (tl : List Char) :
    parseNumber ('-' :: c :: tl) =
      parseNumTail true (takeDigits tl (c.toNat - 48) 1).1
        (takeDigits tl (c.toNat - 48) 1).2.2 := by
  unfold parseNumber
  simp [hne, hdig]

theorem parseNumber_natChars (n : Nat) (rest : List Char)
    (hrest : DelimOk rest) :
    parseNumber (natChars n ++ rest) = some ((n : ℚ), rest) := by
  rcases Nat.eq_zero_or_pos n with rfl | hn
  · rw [natChars_zero]
    show parseNumber ('0' :: rest) = _
    rw [parseNumber_zero_head, parseNumTail_delim _ _ _ hrest]
    simp [applySign]
  · obtain ⟨c, cs, heq, hdig, hne0⟩ := natChars_head_pos n hn
    rw [heq]
    show parseNumber (c :: (cs ++ rest)) = _
    rw [parseNumber_cons_digit c hdig hne0]
    have hcs : ∀ x ∈ cs, isDigit x = true := fun x hx =>
      natChars_digits n x (heq ▸ List.mem_cons_of_mem c hx)
    rw [takeDigits_spec cs hcs rest (delim_not_digit hrest)]
    have hval : (c.toNat - 48) * 10 ^ cs.length + digitsVal cs = n := by
      have h1 := digitsVal_cons c cs
      have h2 := digitsVal_natChars n
      rw [heq] at h2
      omega
    rw [hval, parseNumTail_delim _ _ _ hrest]
    simp [applySign]

theorem parseNumber_intChars (m : Int) (rest : List Char)
    (hrest : DelimOk rest) :
    parseNumber (intChars m ++ rest) = some ((m : ℚ), rest) := by
  by_cases hm : m < 0
  · have hpos : 0 < m.natAbs := by omega
    obtain ⟨c, cs, heq, hdig, hne0⟩ := natChars_head_pos m.natAbs hpos
    unfold intChars
    rw [if_pos hm, heq]
    show parseNumber ('-' :: (c :: (cs ++ rest))) = _
    rw [show ('-' :: (c :: (cs ++ rest))) = ('-' :: c :: (cs ++ rest)) from rfl,
      parseNumber_minus_digit c hdig hne0]
    have hcs : ∀ x ∈ cs, isDigit x = true := fun x hx =>
      natChars_digits m.natAbs x (heq ▸ List.mem_cons_of_mem c hx)
    rw [takeDigits_spec cs hcs rest (delim_not_digit hrest)]
    have hval : (c.toNat - 48) * 10 ^ cs.length + digitsVal cs = m.natAbs := by
      have h1 := digitsVal_cons c cs
      have h2 := digitsVal_natChars m.natAbs
      rw [heq] at h2
      omega
    rw [hval, parseNumTail_delim _ _ _ hrest]
    have h2 : ((m.natAbs : ℕ) : ℚ) = -(m : ℚ) := by
      rw [Int.cast_natAbs, abs_of_neg hm]
      push_cast
      ring
    simp [applySign, h2]
  · unfold intChars
    rw [if_neg hm]
    rw [parseNumber_natChars m.natAbs rest hrest]
    have h2 : ((m.natAbs : ℕ) : ℚ) = (m : ℚ) := by
      rw [Int.cast_natAbs, abs_of_nonneg (Int.not_lt.mp hm)]
    rw [h2]


/-! ## Round-trip development: strings -/

theorem hexVal_hexDigitChar {d : Nat} (h : d < 16) :
    hexVal (hexDigitChar d) = some d := by
  unfold hexDigitChar
  by_cases h10 : d < 10
  · rw [if_pos h10]
    have ht : (Char.ofNat (48 + d)).toNat = 48 + d :=
      toNat_charOfNat (Or.inl (by omega))
    unfold hexVal
    rw [ht, if_pos (by omega)]
    congr 1
    omega
  · rw [if_neg h10]
    have ht : (Char.ofNat (97 + (d - 10))).toNat = 97 + (d - 10) :=
      toNat_charOfNat (Or.inl (by omega))
    unfold hexVal
    rw [ht, if_neg (by omega), if_pos (by omega)]
    congr 1
    omega

theorem escChar_length_pos (c : Char) : 1 ≤ (escChar c).length := by
  unfold escChar
  repeat' split
  all_goals simp

theorem escape_len (s : List Char) : s.length ≤ (escape s).length := by
  induction s with
  | nil => simp [escape]
  | cons c t IH =>
    show (c :: t).length ≤ (escChar c ++ escape t).length
    rw [List.length_append, List.length_cons]
    have := escChar_length_pos c
    omega

theorem parseStringF_escape (s : List Char) : ∀ (fuel : Nat)
    (rest : List Char), s.length < fuel →
    parseStringF fuel (escape s ++ '"' :: rest) = some (s, rest) := by
  induction s with
  | nil =>
    intro fuel rest hfuel
    rcases fuel with _ | f
    · omega
    · rfl
  | cons c t IH =>
    intro fuel rest hfuel
    rcases fuel with _ | f
    · omega
    have hf : t.length < f := by
      simp [List.length_cons] at hfuel
      omega
    show parseStringF (f + 1) (escChar c ++ escape t ++ '"' :: rest) = _
    by_cases h1 : c = '"'
    · subst h1
      show parseStringF (f + 1)
        ('\\' :: '"' :: (escape t ++ '"' :: rest)) = _
      simp only [parseStringF, shortEscape, reduceIte]
      rw [IH f rest hf]
      rfl
    · by_cases h2 : c = '\\'
      · subst h2
        show parseStringF (f + 1)
          ('\\' :: '\\' :: (escape t ++ '"' :: rest)) = _
        simp only [parseStringF, shortEscape, reduceIte]
        rw [IH f rest hf]
        rfl
      · by_cases h3 : c.toNat = 8
        · have hesc : escChar c = ['\\', 'b'] := by
            unfold escChar
            rw [if_neg h1, if_neg h2, if_pos h3]
          rw [hesc]
          show parseStringF (f + 1)
            ('\\' :: 'b' :: (escape t ++ '"' :: rest)) = _
          simp only [parseStringF, shortEscape, reduceIte]
          rw [IH f rest hf]
          have : Char.ofNat 8 = c := by
            rw [← h3, Char.ofNat_toNat]
          rw [this]
          rfl
        · by_cases h4 : c.toNat = 9
          · have hesc : escChar c = ['\\', 't'] := by
              unfold escChar
              rw [if_neg h1, if_neg h2, if_neg h3, if_pos h4]
            rw [hesc]
            show parseStringF (f + 1)
              ('\\' :: 't' :: (escape t ++ '"' :: rest)) = _
            simp only [parseStringF, shortEscape, reduceIte]
            rw [IH f rest hf]
            have : Char.ofNat 9 = c := by
              rw [← h4, Char.ofNat_toNat]
            rw [this]
            rfl
          · by_cases h5 : c.toNat = 10
            · have hesc : escChar c = ['\\', 'n'] := by
                unfold escChar
                rw [if_neg h1, if_neg h2, if_neg h3, if_neg h4, if_pos h5]
              rw [hesc]
              show parseStringF (f + 1)
                ('\\' :: 'n' :: (escape t ++ '"' :: rest)) = _
              simp only [parseStringF, shortEscape, reduceIte]
              rw [IH f rest hf]
              have : Char.ofNat 10 = c := by
                rw [← h5, Char.ofNat_toNat]
              rw [this]
              rfl
            · by_cases h6 : c.toNat = 12
              · have hesc : escChar c = ['\\', 'f'] := by
                  unfold escChar
                  rw [if_neg h1, if_neg h2, if_neg h3, if_neg h4, if_neg h5,
                    if_pos h6]
                rw [hesc]
                show parseStringF (f + 1)
                  ('\\' :: 'f' :: (escape t ++ '"' :: rest)) = _
                simp only [parseStringF, shortEscape, reduceIte]
                rw [IH f rest hf]
                have : Char.ofNat 12 = c := by
                  rw [← h6, Char.ofNat_toNat]
                rw [this]
                rfl
              · by_cases h7 : c.toNat = 13
                · have hesc : escChar c = ['\\', 'r'] := by
                    unfold escChar
                    rw [if_neg h1, if_neg h2, if_neg h3, if_neg h4, if_neg h5,
                      if_neg h6, if_pos h7]
                  rw [hesc]
                  show parseStringF (f + 1)
                    ('\\' :: 'r' :: (escape t ++ '"' :: rest)) = _
                  simp only [parseStringF, shortEscape, reduceIte]
                  rw [IH f rest hf]
                  have : Char.ofNat 13 = c := by
                    rw [← h7, Char.ofNat_toNat]
                  rw [this]
                  rfl
                · by_cases h8 : c.toNat < 32
                  · have hesc : escChar c = '\\' :: 'u' :: '0' :: '0' ::
                        hexDigitChar (c.toNat / 16) ::
                        [hexDigitChar (c.toNat % 16)] := by
                      unfold escChar
                      rw [if_neg h1, if_neg h2, if_neg h3, if_neg h4, if_neg h5,
                        if_neg h6, if_neg h7, if_pos h8]
                    rw [hesc]
                    show parseStringF (f + 1)
                      ('\\' :: 'u' :: '0' :: '0' :: hexDigitChar (c.toNat / 16) ::
                        hexDigitChar (c.toNat % 16) :: (escape t ++ '"' :: rest)) = _
                    simp only [parseStringF, reduceIte]
                    rw [show hexVal '0' = some 0 from rfl,
                      hexVal_hexDigitChar (by omega : c.toNat / 16 < 16),
                      hexVal_hexDigitChar (by omega : c.toNat % 16 < 16)]
                    dsimp only
                    have hn : 0 * 4096 + 0 * 256 + c.toNat / 16 * 16 + c.toNat % 16 =
                        c.toNat := by omega
                    rw [hn]
                    unfold decodeUEscape
                    rw [if_pos (Or.inl (by omega : c.toNat < 0xD800))]
                    dsimp only
                    rw [IH f rest hf, Char.ofNat_toNat]
                    rfl
                  · have hesc : escChar c = [c] := by
                      unfold escChar
                      rw [if_neg h1, if_neg h2, if_neg h3, if_neg h4, if_neg h5,
                        if_neg h6, if_neg h7, if_neg h8]
                    rw [hesc]
                    show parseStringF (f + 1)
                      (c :: (escape t ++ '"' :: rest)) = _
                    simp only [parseStringF]
                    rw [if_neg h1, if_neg h2, if_neg h8, IH f rest hf]
                    rfl

theorem parseStringChars_escape (s rest : List Char) :
    parseStringChars (escape s ++ '"' :: rest) = some (s, rest) := by
  unfold parseStringChars
  apply parseStringF_escape
  have := escape_len s
  rw [List.length_append, List.length_cons]
  omega


/-! ## Round-trip development: dispatch heads -/

theorem sizeJ_pos (j : Json) : 1 ≤ sizeJ j := by
  cases j <;> simp [sizeJ]

theorem skipWs_not_ws {c : Char} (h : isWsChar c = false) (r : List Char) :
    skipWs (c :: r) = c :: r := by
  simp [skipWs, h]

theorem headOk_facts {c : Char} (h : headOk c = true) :
    isWsChar c = false ∧ c ≠ ']' ∧ c ≠ ',' ∧ c ≠ '}' ∧ c ≠ ':' := by
  simp only [headOk, Bool.or_eq_true, decide_eq_true_eq] at h
  rcases h with (((((((h | h) | h) | h) | h) | h) | h) | h)
  · subst h; refine ⟨by decide, by decide, by decide, by decide, by decide⟩
  · subst h; refine ⟨by decide, by decide, by decide, by decide, by decide⟩
  · subst h; refine ⟨by decide, by decide, by decide, by decide, by decide⟩
  · subst h; refine ⟨by decide, by decide, by decide, by decide, by decide⟩
  · subst h; refine ⟨by decide, by decide, by decide, by decide, by decide⟩
  · subst h; refine ⟨by decide, by decide, by decide, by decide, by decide⟩
  · subst h; refine ⟨by decide, by decide, by decide, by decide, by decide⟩
  · simp only [isDigit, Bool.and_eq_true, decide_eq_true_eq] at h
    refine ⟨by simp [isWsChar]; omega, ?_, ?_, ?_, ?_⟩
    all_goals intro he; subst he; revert h; decide

theorem numHead_facts {c : Char} (h : c = '-' ∨ isDigit c = true) :
    isWsChar c = false ∧ c ≠ 'n' ∧ c ≠ 't' ∧ c ≠ 'f' ∧ c ≠ '"' ∧
      c ≠ '[' ∧ c ≠ '{' := by
  rcases h with rfl | h
  · refine ⟨by decide, by decide, by decide, by decide, by decide, by decide,
      by decide⟩
  · simp only [isDigit, Bool.and_eq_true, decide_eq_true_eq] at h
    refine ⟨by simp [isWsChar]; omega, ?_, ?_, ?_, ?_, ?_, ?_⟩
    all_goals intro he; subst he; revert h; decide

theorem numHead_headOk {c : Char} (h : c = '-' ∨ isDigit c = true) :
    headOk c = true := by
  rcases h with rfl | h
  · decide
  · simp [headOk, h]

theorem intChars_head (m : Int) :
    ∃ c cs, intChars m = c :: cs ∧ (c = '-' ∨ isDigit c = true) := by
  unfold intChars
  by_cases hm : m < 0
  · rw [if_pos hm]
    exact ⟨'-', natChars m.natAbs, rfl, Or.inl rfl⟩
  · rw [if_neg hm]
    rcases Nat.eq_zero_or_pos m.natAbs with h0 | hpos
    · rw [h0, natChars_zero]
      exact ⟨'0', [], rfl, Or.inr (by decide)⟩
    · obtain ⟨c, cs, heq, hdig, _⟩ := natChars_head_pos _ hpos
      exact ⟨c, cs, heq, Or.inr hdig⟩

theorem printJ_head (j : Json) :
    ∃ c cs, printJ j = c :: cs ∧ headOk c = true := by
  cases j with
  | null => exact ⟨'n', ['u', 'l', 'l'], by simp [printJ], by decide⟩
  | bool b =>
    cases b
    · exact ⟨'f', ['a', 'l', 's', 'e'], by simp [printJ], by decide⟩
    · exact ⟨'t', ['r', 'u', 'e'], by simp [printJ], by decide⟩
  | num q =>
    by_cases hden : q.den = 1
    · obtain ⟨c, cs, heq, hc⟩ := intChars_head q.num
      exact ⟨c, cs, by simp [printJ, hden, heq], numHead_headOk hc⟩
    · exact ⟨'0', [], by simp [printJ, hden], by decide⟩
  | str s =>
    exact ⟨'"', escape s.data ++ ['"'], by simp [printJ, printString], by decide⟩
  | arr xs =>
    cases xs with
    | nil => exact ⟨'[', [']'], by simp [printJ], by decide⟩
    | cons hd tl =>
      exact ⟨'[', printL (.cons hd tl) ++ [']'], by simp [printJ], by decide⟩
  | obj xs =>
    cases xs with
    | nil => exact ⟨'{', ['}'], by simp [printJ], by decide⟩
    | cons k v tl =>
      exact ⟨'{', printO (.cons k v tl) ++ ['}'], by simp [printJ], by decide⟩

theorem printL_head (h : Json) (t : JsonList) :
    ∃ c cs, printL (.cons h t) = c :: cs ∧ headOk c = true := by
  obtain ⟨c, cs, heq, hok⟩ := printJ_head h
  cases t with
  | nil => exact ⟨c, cs, by simp [printL, heq], hok⟩
  | cons h2 t2 =>
    exact ⟨c, cs ++ ',' :: printL (.cons h2 t2), by simp [printL, heq], hok⟩


/-! ## Round-trip development: the parser reads back what the printer wrote -/

mutual

theorem parseValue_print : ∀ (j : Json), wfJ j = true →
    ∀ (fuel : Nat) (rest : List Char), sizeJ j ≤ fuel → DelimOk rest →
    parseValue fuel (printJ j ++ rest) = some (j, rest)
  | .null, _, fuel, rest, hfuel, _ => by
    rcases fuel with _ | f
    · exact absurd hfuel (by have := sizeJ_pos .null; omega)
    rfl
  | .bool true, _, fuel, rest, hfuel, _ => by
    rcases fuel with _ | f
    · exact absurd hfuel (by have := sizeJ_pos (.bool true); omega)
    rfl
  | .bool false, _, fuel, rest, hfuel, _ => by
    rcases fuel with _ | f
    · exact absurd hfuel (by have := sizeJ_pos (.bool false); omega)
    rfl
  | .num q, hwf, fuel, rest, hfuel, hrest => by
    rcases fuel with _ | f
    · exact absurd hfuel (by have := sizeJ_pos (.num q); omega)
    have hden : q.den = 1 := by simpa [wfJ] using hwf
    obtain ⟨c, cs, heq, hc⟩ := intChars_head q.num
    obtain ⟨hws, hn, ht, hf, hq2, hlb, hob⟩ := numHead_facts hc
    have h : printJ (.num q) ++ rest = c :: (cs ++ rest) := by
      simp [printJ, hden, heq]
    rw [h]
    simp only [parseValue]
    rw [skipWs_not_ws hws]
    dsimp only
    rw [if_neg hn, if_neg ht, if_neg hf, if_neg hq2, if_neg hlb, if_neg hob]
    rw [show c :: (cs ++ rest) = (c :: cs) ++ rest from rfl, ← heq]
    rw [parseNumber_intChars q.num rest hrest]
    simp [Rat.coe_int_num_of_den_eq_one hden]
  | .str s, _, fuel, rest, hfuel, _ => by
    rcases fuel with _ | f
    · exact absurd hfuel (by have := sizeJ_pos (.str s); omega)
    have h : printJ (.str s) ++ rest = '"' :: (escape s.data ++ '"' :: rest) := by
      simp [printJ, printString]
    rw [h]
    show (parseStringChars (escape s.data ++ '"' :: rest)).map
      (fun p => (Json.str ⟨p.1⟩, p.2)) = some (.str s, rest)
    rw [parseStringChars_escape]
    rfl
  | .arr .nil, _, fuel, rest, hfuel, _ => by
    rcases fuel with _ | f
    · exact absurd hfuel (by have := sizeJ_pos (.arr .nil); omega)
    rfl
  | .arr (.cons h t), hwf, fuel, rest, hfuel, _ => by
    rcases fuel with _ | f
    · exact absurd hfuel (by have := sizeJ_pos (.arr (.cons h t)); omega)
    have hwf2 : wfJ h = true ∧ wfL t = true := by
      have : wfL (.cons h t) = true := by simpa [wfJ] using hwf
      simpa [wfL, Bool.and_eq_true] using this
    have hfl : sizeL (.cons h t) ≤ f := by
      have : sizeJ (.arr (.cons h t)) = 1 + sizeL (.cons h t) := by simp [sizeJ]
      omega
    obtain ⟨c, cs, hpr, hok⟩ := printL_head h t
    obtain ⟨hws, hrb, hcm, hob2, hcl⟩ := headOk_facts hok
    have hin : printJ (.arr (.cons h t)) ++ rest =
        '[' :: (printL (.cons h t) ++ ']' :: rest) := by
      simp [printJ]
    rw [hin]
    show (match skipWs (printL (.cons h t) ++ ']' :: rest) with
      | [] => none
      | c1 :: r1 =>
        if c1 = ']' then some (Json.arr .nil, r1)
        else (parseElems f (c1 :: r1)).map (fun p => (Json.arr p.1, p.2))) =
      some (.arr (.cons h t), rest)
    rw [hpr, List.cons_append, skipWs_not_ws hws]
    dsimp only
    rw [if_neg hrb]
    rw [show c :: (cs ++ ']' :: rest) = (c :: cs) ++ ']' :: rest from rfl,
      ← hpr, parseElems_print h t hwf2.1 hwf2.2 f rest hfl]
    rfl
  | .obj .nil, _, fuel, rest, hfuel, _ => by
    rcases fuel with _ | f
    · exact absurd hfuel (by have := sizeJ_pos (.obj .nil); omega)
    rfl
  | .obj (.cons k v t), hwf, fuel, rest, hfuel, _ => by
    rcases fuel with _ | f
    · exact absurd hfuel (by have := sizeJ_pos (.obj (.cons k v t)); omega)
    have hwf2 : wfJ v = true ∧ wfO t = true := by
      have : wfO (.cons k v t) = true := by simpa [wfJ] using hwf
      simpa [wfO, Bool.and_eq_true] using this
    have hfl : sizeO (.cons k v t) ≤ f := by
      have : sizeJ (.obj (.cons k v t)) = 1 + sizeO (.cons k v t) := by simp [sizeJ]
      omega
    have hin : printJ (.obj (.cons k v t)) ++ rest =
        '{' :: (printO (.cons k v t) ++ '}' :: rest) := by
      simp [printJ]
    rw [hin]
    show (match skipWs (printO (.cons k v t) ++ '}' :: rest) with
      | [] => none
      | c1 :: r1 =>
        if c1 = '}' then some (Json.obj .nil, r1)
        else (parseMembers f (c1 :: r1)).map (fun p => (Json.obj p.1, p.2))) =
      some (.obj (.cons k v t), rest)
    have hpo : printO (.cons k v t) ++ '}' :: rest =
        '"' :: ((escape k.data ++ '"' :: (':' :: printJ v ++
          (match t with
            | .nil => []
            | .cons k2 v2 t2 => ',' :: printO (.cons k2 v2 t2)))) ++ '}' :: rest) := by
      cases t <;> simp [printO, printString]
    rw [hpo, skipWs_not_ws (by decide)]
    dsimp only
    rw [if_neg (by decide : ¬ ('"' = '}'))]
    rw [← hpo, parseMembers_print k v t hwf2.1 hwf2.2 f rest hfl]
    rfl
termination_by j _ _ _ _ _ => sizeJ j
decreasing_by
  all_goals simp [sizeJ, sizeL, sizeO]
  all_goals omega

theorem parseElems_print : ∀ (h : Json) (t : JsonList), wfJ h = true →
    wfL t = true → ∀ (fuel : Nat) (rest : List Char),
    sizeL (.cons h t) ≤ fuel →
    parseElems fuel (printL (.cons h t) ++ ']' :: rest) =
      some (.cons h t, rest)
  | h, .nil, hwfh, _, fuel, rest, hfuel => by
    rcases fuel with _ | f
    · simp [sizeL] at hfuel
    have hfh : sizeJ h ≤ f := by simp [sizeL] at hfuel; omega
    have hp : printL (.cons h .nil) = printJ h := by simp [printL]
    rw [hp]
    simp only [parseElems]
    rw [parseValue_print h hwfh f (']' :: rest) hfh
      (Or.inr ⟨']', rest, rfl, Or.inr (Or.inl rfl)⟩)]
    rfl
  | h, .cons h2 t2, hwfh, hwft, fuel, rest, hfuel => by
    rcases fuel with _ | f
    · simp [sizeL] at hfuel
    have hfh : sizeJ h ≤ f := by simp [sizeL] at hfuel; omega
    have hft : sizeL (.cons h2 t2) ≤ f := by
      simp [sizeL] at hfuel ⊢
      omega
    have hwf2 : wfJ h2 = true ∧ wfL t2 = true := by
      simpa [wfL, Bool.and_eq_true] using hwft
    have hp : printL (.cons h (.cons h2 t2)) ++ ']' :: rest =
        printJ h ++ ',' :: (printL (.cons h2 t2) ++ ']' :: rest) := by
      simp [printL]
    rw [hp]
    simp only [parseElems]
    rw [parseValue_print h hwfh f (',' :: (printL (.cons h2 t2) ++ ']' :: rest))
      hfh (Or.inr ⟨',', _, rfl, Or.inl rfl⟩)]
    try dsimp only
    rw [skipWs_not_ws (by decide)]
    try dsimp only
    simp only [reduceIte]
    rw [parseElems_print h2 t2 hwf2.1 hwf2.2 f rest hft]
termination_by h t _ _ _ _ _ => sizeL (.cons h t)
decreasing_by
  all_goals simp [sizeJ, sizeL, sizeO]
  all_goals omega

theorem parseMembers_print : ∀ (k : String) (v : Json) (t : JsonObj),
    wfJ v = true → wfO t = true → ∀ (fuel : Nat) (rest : List Char),
    sizeO (.cons k v t) ≤ fuel →
    parseMembers fuel (printO (.cons k v t) ++ '}' :: rest) =
      some (.cons k v t, rest)
  | k, v, .nil, hwfv, _, fuel, rest, hfuel => by
    rcases fuel with _ | f
    · simp [sizeO] at hfuel
    have hfv : sizeJ v ≤ f := by simp [sizeO] at hfuel; omega
    have hp : printO (.cons k v .nil) ++ '}' :: rest =
        '"' :: (escape k.data ++ '"' :: (':' :: (printJ v ++ '}' :: rest))) := by
      simp [printO, printString]
    rw [hp]
    simp only [parseMembers]
    rw [skipWs_not_ws (by decide)]
    try dsimp only
    simp only [reduceIte]
    rw [parseStringChars_escape]
    try dsimp only
    rw [skipWs_not_ws (by decide)]
    try dsimp only
    simp only [reduceIte]
    rw [parseValue_print v hwfv f ('}' :: rest) hfv
      (Or.inr ⟨'}', rest, rfl, Or.inr (Or.inr rfl)⟩)]
    try dsimp only
    rw [skipWs_not_ws (by decide)]
    try dsimp only
    simp only [reduceIte]
    rfl
  | k, v, .cons k2 v2 t2, hwfv, hwft, fuel, rest, hfuel => by
    rcases fuel with _ | f
    · simp [sizeO] at hfuel
    have hfv : sizeJ v ≤ f := by simp [sizeO] at hfuel; omega
    have hft : sizeO (.cons k2 v2 t2) ≤ f := by
      simp [sizeO] at hfuel ⊢
      omega
    have hwf2 : wfJ v2 = true ∧ wfO t2 = true := by
      simpa [wfO, Bool.and_eq_true] using hwft
    have hp : printO (.cons k v (.cons k2 v2 t2)) ++ '}' :: rest =
        '"' :: (escape k.data ++ '"' :: (':' ::
          (printJ v ++ ',' :: (printO (.cons k2 v2 t2) ++ '}' :: rest)))) := by
      simp [printO, printString]
    rw [hp]
    simp only [parseMembers]
    rw [skipWs_not_ws (by decide)]
    try dsimp only
    simp only [reduceIte]
    rw [parseStringChars_escape]
    try dsimp only
    rw [skipWs_not_ws (by decide)]
    try dsimp only
    simp only [reduceIte]
    rw [parseValue_print v hwfv f
      (',' :: (printO (.cons k2 v2 t2) ++ '}' :: rest)) hfv
      (Or.inr ⟨',', _, rfl, Or.inl rfl⟩)]
    try dsimp only
    rw [skipWs_not_ws (by decide)]
    try dsimp only
    simp only [reduceIte]
    rw [parseMembers_print k2 v2 t2 hwf2.1 hwf2.2 f rest hft]
termination_by k v t _ _ _ _ _ => sizeO (.cons k v t)
decreasing_by
  all_goals simp [sizeJ, sizeL, sizeO]
  all_goals omega

end


theorem natChars_len_pos (n : Nat) : 1 ≤ (natChars n).length := by
  rw [natChars_unfold]
  by_cases h : n < 10
  · simp [h]
  · simp [h]

mutual

theorem sizeJ_le_len : ∀ j : Json, sizeJ j ≤ (printJ j).length
  | .null => by simp [sizeJ, printJ]
  | .bool true => by simp [sizeJ, printJ]
  | .bool false => by simp [sizeJ, printJ]
  | .num q => by
    by_cases h : q.den = 1
    · have : printJ (.num q) = intChars q.num := by simp [printJ, h]
      rw [this]
      unfold intChars
      by_cases hm : q.num < 0
      · rw [if_pos hm]
        have := natChars_len_pos q.num.natAbs
        simp only [sizeJ, List.length_cons]
        omega
      · rw [if_neg hm]
        have := natChars_len_pos q.num.natAbs
        simp only [sizeJ]
        omega
    · have : printJ (.num q) = ['0'] := by simp [printJ, h]
      rw [this]
      simp [sizeJ]
  | .str s => by simp [sizeJ, printJ, printString]
  | .arr .nil => by simp [sizeJ, sizeL, printJ]
  | .arr (.cons h t) => by
    have ih := sizeL_le_len h t
    have : printJ (.arr (.cons h t)) = '[' :: (printL (.cons h t) ++ [']']) := by
      simp [printJ]
    rw [this]
    simp only [sizeJ, List.length_cons, List.length_append, List.length_singleton]
    omega
  | .obj .nil => by simp [sizeJ, sizeO, printJ]
  | .obj (.cons k v t) => by
    have ih := sizeO_le_len k v t
    have : printJ (.obj (.cons k v t)) = '{' :: (printO (.cons k v t) ++ ['}']) := by
      simp [printJ]
    rw [this]
    simp only [sizeJ, List.length_cons, List.length_append, List.length_singleton]
    omega
termination_by j => sizeJ j
decreasing_by
  all_goals simp [sizeJ, sizeL, sizeO]
  all_goals omega

theorem sizeL_le_len : ∀ (h : Json) (t : JsonList),
    sizeL (.cons h t) ≤ (printL (.cons h t)).length + 1
  | h, .nil => by
    have ih := sizeJ_le_len h
    have : printL (.cons h .nil) = printJ h := by simp [printL]
    rw [this]
    simp only [sizeL]
    omega
  | h, .cons h2 t2 => by
    have ih1 := sizeJ_le_len h
    have ih2 := sizeL_le_len h2 t2
    have : printL (.cons h (.cons h2 t2)) =
        printJ h ++ ',' :: printL (.cons h2 t2) := by simp [printL]
    rw [this]
    simp only [sizeL, List.length_append, List.length_cons] at ih2 ⊢
    omega
termination_by h t => sizeL (.cons h t)
decreasing_by
  all_goals simp [sizeJ, sizeL, sizeO]
  all_goals omega

theorem sizeO_le_len : ∀ (k : String) (v : Json) (t : JsonObj),
    sizeO (.cons k v t) ≤ (printO (.cons k v t)).length + 1
  | k, v, .nil => by
    have ih := sizeJ_le_len v
    have : printO (.cons k v .nil) = printString k ++ ':' :: printJ v := by
      simp [printO]
    rw [this]
    simp only [sizeO, List.length_append, List.length_cons]
    omega
  | k, v, .cons k2 v2 t2 => by
    have ih1 := sizeJ_le_len v
    have ih2 := sizeO_le_len k2 v2 t2
    have : printO (.cons k v (.cons k2 v2 t2)) =
        printString k ++ ':' :: printJ v ++ ',' :: printO (.cons k2 v2 t2) := by
      simp [printO]
    rw [this]
    simp only [sizeO, List.length_append, List.length_cons] at ih2 ⊢
    omega
termination_by k v t => sizeO (.cons k v t)
decreasing_by
  all_goals simp [sizeJ, sizeL, sizeO]
  all_goals omega

end

theorem jsonParse_print (j : Json) (hwf : wfJ j = true) :
    jsonParse (printJ j) = some j := by
  unfold jsonParse
  have hfuel : sizeJ j ≤ (printJ j).length + 1 := by
    have := sizeJ_le_len j
    omega
  have h := parseValue_print j hwf ((printJ j).length + 1) [] hfuel (Or.inl rfl)
  rw [List.append_nil] at h
  rw [h]
  rfl


/-! ## Round-trip development: base64 -/

theorem b64Char_props : ∀ n, n < 64 → b64Val (b64Char n) = some n ∧
    isAsciiWs (b64Char n) = false ∧ b64Char n ≠ '=' ∧ b64Char n ≠ '.' := by
  decide

theorem b64url_unmap : ∀ n, n < 64 →
    b64OfB64Url (if b64Char n = '+' then '-'
      else if b64Char n = '/' then '_' else b64Char n) = b64Char n := by
  decide

theorem b64url_not_dot : ∀ n, n < 64 →
    (if b64Char n = '+' then '-'
      else if b64Char n = '/' then '_' else b64Char n) ≠ '.' := by
  decide

theorem b64Sextets_lt : ∀ (bs : List Nat), (∀ b ∈ bs, b < 256) →
    ∀ v ∈ b64Sextets bs, v < 64
  | [], _ => by simp [b64Sextets]
  | [x], h => by
    have hx := h x (by simp)
    intro v hv
    simp only [b64Sextets, List.mem_cons, List.not_mem_nil, or_false] at hv
    rcases hv with rfl | rfl <;> omega
  | [x, y], h => by
    have hx := h x (by simp)
    have hy := h y (by simp)
    intro v hv
    simp only [b64Sextets, List.mem_cons, List.not_mem_nil, or_false] at hv
    rcases hv with rfl | rfl | rfl <;> omega
  | x :: y :: z :: (rest : List Nat), h => by
    have hx := h x (by simp)
    have hy := h y (by simp)
    have hz := h z (by simp)
    have ih := b64Sextets_lt rest (fun b hb => h b (by simp [hb]))
    intro v hv
    simp only [b64Sextets, List.mem_cons] at hv
    rcases hv with rfl | rfl | rfl | rfl | hv
    · omega
    · omega
    · omega
    · omega
    · exact ih v hv

theorem b64DecodeVals_sextets : ∀ (bs : List Nat), (∀ b ∈ bs, b < 256) →
    b64DecodeVals (b64Sextets bs) = bs
  | [], _ => rfl
  | [x], h => by
    have hx := h x (by simp)
    have e1 : x / 4 * 4 + x % 4 * 16 / 16 = x := by omega
    simp only [b64Sextets, b64DecodeVals, e1]
  | [x, y], h => by
    have hx := h x (by simp)
    have hy := h y (by simp)
    have e1 : x / 4 * 4 + (x % 4 * 16 + y / 16) / 16 = x := by omega
    have e2 : (x % 4 * 16 + y / 16) % 16 * 16 + y % 16 * 4 / 4 = y := by omega
    simp only [b64Sextets, b64DecodeVals, e1, e2]
  | x :: y :: z :: (rest : List Nat), h => by
    have hx := h x (by simp)
    have hy := h y (by simp)
    have hz := h z (by simp)
    have ih := b64DecodeVals_sextets rest (fun b hb => h b (by simp [hb]))
    have e1 : x / 4 * 4 + (x % 4 * 16 + y / 16) / 16 = x := by omega
    have e2 : (x % 4 * 16 + y / 16) % 16 * 16 + (y % 16 * 4 + z / 64) / 4 = y := by
      omega
    have e3 : (y % 16 * 4 + z / 64) % 4 * 64 + z % 64 = z := by omega
    simp only [b64Sextets, b64DecodeVals, e1, e2, e3, ih]

theorem b64Sextets_len_mod : ∀ (bs : List Nat),
    (b64Sextets bs).length % 4 ≠ 1
  | [] => by simp [b64Sextets]
  | [x] => by simp [b64Sextets]
  | [x, y] => by simp [b64Sextets]
  | x :: y :: z :: (rest : List Nat) => by
    have ih := b64Sextets_len_mod rest
    simp only [b64Sextets, List.length_cons]
    omega

theorem b64Encode_filter : ∀ (bs : List Nat), (∀ b ∈ bs, b < 256) →
    (b64EncodeBytes bs).filter (fun c => c ≠ '=') = (b64Sextets bs).map b64Char
  | [], _ => rfl
  | [x], h => by
    have hx := h x (by simp)
    have h1 := b64Char_props (x / 4) (by omega)
    have h2 := b64Char_props (x % 4 * 16) (by omega)
    simp only [b64EncodeBytes, b64Sextets, List.map_cons, List.map_nil,
      List.filter]
    simp [h1.2.2.1, h2.2.2.1]
  | [x, y], h => by
    have hx := h x (by simp)
    have hy := h y (by simp)
    have h1 := b64Char_props (x / 4) (by omega)
    have h2 := b64Char_props (x % 4 * 16 + y / 16) (by omega)
    have h3 := b64Char_props (y % 16 * 4) (by omega)
    simp only [b64EncodeBytes, b64Sextets, List.map_cons, List.map_nil,
      List.filter]
    simp [h1.2.2.1, h2.2.2.1, h3.2.2.1]
  | x :: y :: z :: (rest : List Nat), h => by
    have hx := h x (by simp)
    have hy := h y (by simp)
    have hz := h z (by simp)
    have ih := b64Encode_filter rest (fun b hb => h b (by simp [hb]))
    have h1 := b64Char_props (x / 4) (by omega)
    have h2 := b64Char_props (x % 4 * 16 + y / 16) (by omega)
    have h3 := b64Char_props (y % 16 * 4 + z / 64) (by omega)
    have h4 := b64Char_props (z % 64) (by omega)
    simp only [b64EncodeBytes, b64Sextets, List.map_cons, List.filter]
    simp [h1.2.2.1, h2.2.2.1, h3.2.2.1, h4.2.2.1]
    simpa using ih

theorem dropPad_no_pad (cs : List Char) (h : ∀ c ∈ cs, c ≠ '=') :
    dropPad cs = cs := by
  unfold dropPad
  split
  · rename_i r heq
    exfalso
    have hm : '=' ∈ cs := by
      have : '=' ∈ cs.reverse := by rw [heq]; simp
      simpa using this
    exact h '=' hm rfl
  · rename_i r heq
    exfalso
    have hm : '=' ∈ cs := by
      have : '=' ∈ cs.reverse := by rw [heq]; simp
      simpa using this
    exact h '=' hm rfl
  · rfl

theorem mapM_b64Val : ∀ (vs : List Nat), (∀ v ∈ vs, v < 64) →
    (vs.map b64Char).mapM b64Val = some vs
  | [], _ => rfl
  | v :: t, h => by
    have hv := (b64Char_props v (h v (by simp))).1
    have ih := mapM_b64Val t (fun w hw => h w (by simp [hw]))
    simp only [List.map_cons, List.mapM_cons, hv, ih, Option.pure_def,
      Option.bind_eq_bind, Option.some_bind]

theorem atob_b64url_encode (bs : List Nat) (h : ∀ b ∈ bs, b < 256) :
    atob ((base64UrlEncode bs).map b64OfB64Url) = some bs := by
  have hmap : (base64UrlEncode bs).map b64OfB64Url =
      (b64Sextets bs).map b64Char := by
    unfold base64UrlEncode
    rw [b64Encode_filter bs h, List.map_map, List.map_map]
    apply List.map_congr_left
    intro v hv
    exact b64url_unmap v (b64Sextets_lt bs h v hv)
  rw [hmap]
  unfold atob
  dsimp only
  have hnows : ((b64Sextets bs).map b64Char).filter (fun c => !isAsciiWs c) =
      (b64Sextets bs).map b64Char := by
    apply List.filter_eq_self.mpr
    intro c hc
    obtain ⟨v, hv, rfl⟩ := List.mem_map.mp hc
    simp [(b64Char_props v (b64Sextets_lt bs h v hv)).2.1]
  rw [hnows]
  have hnopad : ∀ c ∈ (b64Sextets bs).map b64Char, c ≠ '=' := by
    intro c hc
    obtain ⟨v, hv, rfl⟩ := List.mem_map.mp hc
    exact (b64Char_props v (b64Sextets_lt bs h v hv)).2.2.1
  have hlen : ((b64Sextets bs).map b64Char).length % 4 ≠ 1 := by
    rw [List.length_map]
    exact b64Sextets_len_mod bs
  by_cases h4 : ((b64Sextets bs).map b64Char).length % 4 = 0
  · rw [if_pos h4, dropPad_no_pad _ hnopad, if_neg hlen,
      mapM_b64Val (b64Sextets bs) (b64Sextets_lt bs h)]
    dsimp only
    rw [b64DecodeVals_sextets bs h]
  · rw [if_neg h4, if_neg hlen,
      mapM_b64Val (b64Sextets bs) (b64Sextets_lt bs h)]
    dsimp only
    rw [b64DecodeVals_sextets bs h]


/-! ## Round-trip development: UTF-8 -/

theorem char_valid (c : Char) :
    c.toNat < 0xD800 ∨ (0xE000 ≤ c.toNat ∧ c.toNat < 0x110000) := by
  have h : c.toNat < 55296 ∨ 57343 < c.toNat ∧ c.toNat < 1114112 := c.valid
  omega

theorem isCont_of_bounds {x : Nat} (h1 : 0x80 ≤ x) (h2 : x < 0xC0) :
    isCont x = true := by
  simp only [isCont, Bool.and_eq_true, decide_eq_true_eq]
  exact ⟨h1, h2⟩

theorem not_surrogate_cond {n : Nat} (h : n < 0xD800 ∨ 0xE000 ≤ n) :
    (decide (0xD800 ≤ n) && decide (n < 0xE000)) = false := by
  rcases h with h | h
  · have hd : decide (0xD800 ≤ n) = false := by
      simpa using (by omega : ¬ (0xD800 ≤ n))
    rw [hd, Bool.false_and]
  · have hd : decide (n < 0xE000) = false := by
      simpa using (by omega : ¬ (n < 0xE000))
    rw [hd, Bool.and_false]

theorem utf8EncodeChar_bytes_lt (c : Char) : ∀ b ∈ utf8EncodeChar c, b < 256 := by
  have hv : c.toNat < 0x110000 := by
    rcases char_valid c with h | ⟨_, h⟩ <;> omega
  intro b hb
  unfold utf8EncodeChar at hb
  dsimp only at hb
  by_cases h1 : c.toNat < 0x80
  · rw [if_pos h1] at hb
    simp only [List.mem_singleton] at hb
    omega
  · rw [if_neg h1] at hb
    by_cases h2 : c.toNat < 0x800
    · rw [if_pos h2] at hb
      simp only [List.mem_cons, List.mem_singleton, List.not_mem_nil,
        or_false] at hb
      rcases hb with rfl | rfl <;> omega
    · rw [if_neg h2] at hb
      by_cases h3 : c.toNat < 0x10000
      · rw [if_pos h3] at hb
        simp only [List.mem_cons, List.mem_singleton, List.not_mem_nil,
          or_false] at hb
        rcases hb with rfl | rfl | rfl <;> omega
      · rw [if_neg h3] at hb
        simp only [List.mem_cons, List.mem_singleton, List.not_mem_nil,
          or_false] at hb
        rcases hb with rfl | rfl | rfl | rfl <;> omega

theorem utf8Encode_bytes_lt (cs : List Char) : ∀ b ∈ utf8Encode cs, b < 256 := by
  intro b hb
  unfold utf8Encode at hb
  obtain ⟨c, _, hbc⟩ := List.mem_flatMap.mp hb
  exact utf8EncodeChar_bytes_lt c b hbc

theorem utf8Step2_rest {b b2 : Nat} {r2 : List Nat} {cr : Char × List Nat}
    (h : utf8Step2 b b2 r2 = some cr) : cr.2 = r2 := by
  unfold utf8Step2 at h
  split_ifs at h
  exact (congrArg Prod.snd (Option.some_inj.mp h)).symm

theorem utf8Step3_rest {b b2 b3 : Nat} {r2 : List Nat} {cr : Char × List Nat}
    (h : utf8Step3 b b2 b3 r2 = some cr) : cr.2 = r2 := by
  unfold utf8Step3 at h
  dsimp only at h
  split_ifs at h
  exact (congrArg Prod.snd (Option.some_inj.mp h)).symm

theorem utf8Step4_rest {b b2 b3 b4 : Nat} {r2 : List Nat}
    {cr : Char × List Nat} (h : utf8Step4 b b2 b3 b4 r2 = some cr) :
    cr.2 = r2 := by
  unfold utf8Step4 at h
  dsimp only at h
  split_ifs at h
  exact (congrArg Prod.snd (Option.some_inj.mp h)).symm

theorem utf8Step_rest_le {b : Nat} {r : List Nat} {cr : Char × List Nat}
    (h : utf8Step b r = some cr) : cr.2.length ≤ r.length := by
  unfold utf8Step at h
  split_ifs at h
  · have e : cr.2 = r := (congrArg Prod.snd (Option.some_inj.mp h)).symm
    exact le_of_eq (congrArg List.length e)
  · split at h
    · rw [utf8Step2_rest h]
      simp only [List.length_cons]
      omega
    · simp at h
  · split at h
    · rw [utf8Step3_rest h]
      simp only [List.length_cons]
      omega
    · simp at h
  · split at h
    · rw [utf8Step4_rest h]
      simp only [List.length_cons]
      omega
    · simp at h

theorem utf8DecodeF_fuel : ∀ (fuel fuel' : Nat) (bs : List Nat),
    bs.length < fuel → bs.length < fuel' →
    utf8DecodeF fuel bs = utf8DecodeF fuel' bs := by
  intro fuel
  induction fuel with
  | zero =>
    intro fuel' bs h _
    omega
  | succ f IH =>
    intro fuel' bs h h'
    match fuel', bs with
    | 0, _ => omega
    | f' + 1, [] => rfl
    | f' + 1, b :: r =>
      show utf8DecodeF (f + 1) (b :: r) = utf8DecodeF (f' + 1) (b :: r)
      unfold utf8DecodeF
      cases hstep : utf8Step b r with
      | none => rfl
      | some cr =>
        have hle : cr.2.length ≤ r.length := utf8Step_rest_le hstep
        have hlen : (b :: r).length = r.length + 1 := rfl
        dsimp only
        rw [IH f' cr.2 (by omega) (by omega)]

theorem utf8Decode_cons_step {b : Nat} {r bs : List Nat} {c : Char}
    (h : utf8Step b r = some (c, bs)) :
    utf8Decode (b :: r) = (utf8Decode bs).map (fun t => c :: t) := by
  have hle : bs.length ≤ r.length := utf8Step_rest_le h
  show utf8DecodeF (r.length + 1 + 1) (b :: r) = _
  unfold utf8DecodeF
  rw [h]
  dsimp only
  rw [utf8DecodeF_fuel (r.length + 1) (bs.length + 1) bs (by omega) (by omega)]
  rfl

theorem utf8Decode_encodeChar (c : Char) (bs : List Nat) :
    utf8Decode (utf8EncodeChar c ++ bs) =
      (utf8Decode bs).map (fun t => c :: t) := by
  have hval := char_valid c
  unfold utf8EncodeChar
  dsimp only
  by_cases h1 : c.toNat < 0x80
  · rw [if_pos h1]
    simp only [List.cons_append, List.nil_append]
    refine utf8Decode_cons_step ?_
    unfold utf8Step
    rw [if_pos h1, Char.ofNat_toNat]
  · rw [if_neg h1]
    have hlow : 0x80 ≤ c.toNat := by omega
    by_cases h2 : c.toNat < 0x800
    · rw [if_pos h2]
      simp only [List.cons_append, List.nil_append]
      refine utf8Decode_cons_step ?_
      unfold utf8Step
      rw [if_neg (by omega)]
      rw [if_neg (by omega)]
      rw [if_pos (by omega)]
      try dsimp only
      unfold utf8Step2
      rw [if_pos (isCont_of_bounds (by omega) (by omega))]
      have he : (0xC0 + c.toNat / 64 - 0xC0) * 64 +
          (0x80 + c.toNat % 64 - 0x80) = c.toNat := by omega
      rw [he, Char.ofNat_toNat]
    · rw [if_neg h2]
      by_cases h3 : c.toNat < 0x10000
      · rw [if_pos h3]
        simp only [List.cons_append, List.nil_append]
        refine utf8Decode_cons_step ?_
        unfold utf8Step
        rw [if_neg (by omega)]
        rw [if_neg (by omega)]
        rw [if_neg (by omega)]
        rw [if_pos (by omega)]
        try dsimp only
        unfold utf8Step3
        try dsimp only
        have he : (0xE0 + c.toNat / 4096 - 0xE0) * 4096 +
            (0x80 + c.toNat / 64 % 64 - 0x80) * 64 +
            (0x80 + c.toNat % 64 - 0x80) = c.toNat := by omega
        rw [he]
        have hsur : c.toNat < 0xD800 ∨ 0xE000 ≤ c.toNat := by
          rcases hval with h | ⟨h, _⟩
          · exact Or.inl h
          · exact Or.inr h
        rw [isCont_of_bounds (by omega) (by omega),
          isCont_of_bounds (by omega) (by omega),
          show decide (0x800 ≤ c.toNat) = true from by
            simpa using (by omega : 0x800 ≤ c.toNat),
          not_surrogate_cond hsur]
        rw [if_pos (by decide), Char.ofNat_toNat]
      · rw [if_neg h3]
        have hv4 : c.toNat < 0x110000 := by
          rcases hval with h | ⟨_, h⟩ <;> omega
        simp only [List.cons_append, List.nil_append]
        refine utf8Decode_cons_step ?_
        unfold utf8Step
        rw [if_neg (by omega)]
        rw [if_neg (by omega)]
        rw [if_neg (by omega)]
        rw [if_neg (by omega)]
        rw [if_pos (by omega)]
        try dsimp only
        unfold utf8Step4
        try dsimp only
        have he : (0xF0 + c.toNat / 262144 - 0xF0) * 262144 +
            (0x80 + c.toNat / 4096 % 64 - 0x80) * 4096 +
            (0x80 + c.toNat / 64 % 64 - 0x80) * 64 +
            (0x80 + c.toNat % 64 - 0x80) = c.toNat := by omega
        rw [he]
        rw [isCont_of_bounds (by omega) (by omega),
          isCont_of_bounds (by omega) (by omega),
          isCont_of_bounds (by omega) (by omega),
          show decide (0x10000 ≤ c.toNat) = true from by
            simpa using (by omega : 0x10000 ≤ c.toNat),
          show decide (c.toNat < 0x110000) = true from by
            simpa using hv4]
        rw [if_pos (by decide), Char.ofNat_toNat]

theorem utf8_roundtrip (cs : List Char) :
    utf8Decode (utf8Encode cs) = some cs := by
  induction cs with
  | nil => rfl
  | cons c t IH =>
    show utf8Decode ((c :: t).flatMap utf8EncodeChar) = _
    rw [List.flatMap_cons]
    rw [show t.flatMap utf8EncodeChar = utf8Encode t from rfl]
    rw [utf8Decode_encodeChar, IH]
    rfl

/-! ## Round-trip development: token assembly and `decodeToken` (C7) -/

theorem splitDot_append_dot : ∀ (a rest : List Char), '.' ∉ a →
    splitDot (a ++ '.' :: rest) = a :: splitDot rest := by
  intro a
  induction a with
  | nil =>
    intro rest _
    show splitDot ('.' :: rest) = [] :: splitDot rest
    rw [show splitDot ('.' :: rest) =
      if '.' = '.' then [] :: splitDot rest
      else splitDotPre '.' (splitDot rest) from rfl]
    rw [if_pos rfl]
  | cons c t ih =>
    intro rest hni
    have hc : c ≠ '.' := by
      intro e
      exact hni (by rw [e]; exact List.mem_cons_self _ _)
    have hni2 : '.' ∉ t := fun hm => hni (List.mem_cons_of_mem _ hm)
    show splitDot (c :: (t ++ '.' :: rest)) = (c :: t) :: splitDot rest
    rw [show splitDot (c :: (t ++ '.' :: rest)) =
      if c = '.' then [] :: splitDot (t ++ '.' :: rest)
      else splitDotPre c (splitDot (t ++ '.' :: rest)) from rfl]
    rw [if_neg hc, ih rest hni2]
    rfl

theorem base64UrlEncode_no_dot (bs : List Nat) (h : ∀ b ∈ bs, b < 256) :
    '.' ∉ base64UrlEncode bs := by
  unfold base64UrlEncode
  rw [b64Encode_filter bs h]
  intro hmem
  rw [List.mem_map] at hmem
  obtain ⟨c, hc, he⟩ := hmem
  rw [List.mem_map] at hc
  obtain ⟨v, hv, rfl⟩ := hc
  exact b64url_not_dot v (b64Sextets_lt bs h v hv) he

theorem payloadSegment_mkToken (header sig : String) (payload : Json)
    (hh : '.' ∉ header.data)
    (hb : ∀ b ∈ utf8Encode (printJ payload), b < 256) :
    payloadSegment (mkToken header payload sig) =
      some (base64UrlEncode (utf8Encode (printJ payload))) := by
  have hpc : '.' ∉ base64UrlEncode (utf8Encode (printJ payload)) :=
    base64UrlEncode_no_dot _ hb
  unfold payloadSegment
  have hdata : (mkToken header payload sig).data =
      header.data ++ '.' :: (base64UrlEncode (utf8Encode (printJ payload)) ++
        '.' :: sig.data) := by
    show header.data ++ ['.'] ++ base64UrlEncode (utf8Encode (printJ payload))
      ++ ['.'] ++ sig.data = _
    simp [List.append_assoc]
  rw [hdata, splitDot_append_dot _ _ hh, splitDot_append_dot _ _ hpc]
  rfl

/-- C7: for every token assembled as `header.payload.signature` where the
payload segment is the base64url encoding of a (well-formed, integral-
numbered) JSON object carrying `sub` and `exp` and the header contains no
dot, `decodeToken` returns exactly that payload object; since the header
and signature are arbitrary, decoding reads only the second segment. -/
theorem decodeToken_roundtrip (header sig : String) (ms : JsonObj)
    (hh : '.' ∉ header.data) (hwf : wfO ms = true)
    (hsub : getFieldO ms "sub" ≠ none) (hexp : getFieldO ms "exp" ≠ none) :
    decodeToken (mkToken header (.obj ms) sig) = some (.obj ms) := by
  unfold decodeToken
  rw [payloadSegment_mkToken header sig (.obj ms) hh
    (utf8Encode_bytes_lt (printJ (.obj ms)))]
  dsimp only
  rw [atob_b64url_encode (utf8Encode (printJ (.obj ms)))
    (utf8Encode_bytes_lt (printJ (.obj ms)))]
  dsimp only
  rw [utf8_roundtrip (printJ (.obj ms))]
  dsimp only
  exact jsonParse_print (.obj ms) (by simp only [wfJ]; exact hwf)

/-- Witness for `decodeToken_roundtrip`: the sample token decodes back to
`samplePayload`. -/
theorem decodeToken_roundtrip_witness :
    ('.' ∉ ("hdr" : String).data) ∧ wfO samplePayload = true ∧
      getFieldO samplePayload "sub" ≠ none ∧
      getFieldO samplePayload "exp" ≠ none ∧
      decodeToken sampleToken = some (.obj samplePayload) :=
  ⟨by decide, by decide, by decide, by decide,
    decodeToken_roundtrip "hdr" "sig" samplePayload (by decide) (by decide)
      (by decide) (by decide)⟩

end Befe
